import Mathlib

/-!
Verification of the CodeCoach Studio quiz pipeline.

This file gives a shallow embedding of the quiz core of the repository:
the JSON response extractor and schema normalizer of the backend
(`backend/index.js`), and the frontend normalizer / scoring engine /
session state / proctoring collector of
`src/components/QuizManager.tsx`.

Modelling conventions:
* JavaScript numbers are modelled as exact rationals (every numeric
  value the quiz pipeline manipulates is a small rational; `NaN` is
  modelled by `Option.none` at the coercion points where the code tests
  for it).
* JavaScript strings are Lean `String`s; `toLowerCase` is modelled for
  the ASCII strings the pipeline manipulates.
* Parsed JSON values (the untrusted inputs of the normalizers) are the
  inductive `JVal`; a possibly-`undefined` value is an `Option JVal`.
-/

/-! ### Characters and small helpers -/

def braceOpen : Char := Char.ofNat 123

def braceClose : Char := Char.ofNat 125

def backtick : Char := Char.ofNat 96

/-- Whitespace accepted by strict JSON (`JSON.parse`): space, tab, LF, CR. -/
def isJsonWs (c : Char) : Bool :=
  c = ' ' || c = '\t' || c = '\n' || c = '\r'

/-- Whitespace matched by the JavaScript regex class `\s` (ASCII part:
space, tab, LF, CR, vertical tab, form feed).  The pipeline only ever
meets ASCII whitespace here. -/
def isRegexWs (c : Char) : Bool :=
  c = ' ' || c = '\t' || c = '\n' || c = '\r' || c = Char.ofNat 11 || c = Char.ofNat 12

/-- ASCII lowercasing: the effect of `String.prototype.toLowerCase` on
the ASCII strings this pipeline manipulates. -/
def lowerStr (s : String) : String :=
  String.mk (s.toList.map Char.toLower)

/-- `Math.round`: rounds half-way cases toward positive infinity. -/
def jsRound (q : ℚ) : ℤ := ⌊q + 1/2⌋

/-- Substring test on character lists (backing `String.prototype.includes`). -/
def listContains (sub : List Char) : List Char → Bool
  | [] => sub.isEmpty
  | c :: rest => sub.isPrefixOf (c :: rest) || listContains sub rest

/-- `String.prototype.includes`: substring containment. -/
def includesStr (s sub : String) : Bool :=
  listContains sub.toList s.toList

/-! ### Parsed JSON values -/

/-- A parsed JavaScript value: everything `JSON.parse` can produce.  An
absent (`undefined`) value is represented by `Option.none` around
`JVal`. -/
inductive JVal where
  | null : JVal
  | bool : Bool → JVal
  | num : ℚ → JVal
  | str : String → JVal
  | arr : List JVal → JVal
  | obj : List (String × JVal) → JVal

/-- JavaScript truthiness of a defined value. -/
def jsTruthy : JVal → Bool
  | .null => false
  | .bool b => b
  | .num q => q ≠ 0
  | .str s => s ≠ ""
  | .arr _ => true
  | .obj _ => true

/-- Truthiness of a possibly-`undefined` value. -/
def jsTruthyOpt : Option JVal → Bool
  | none => false
  | some v => jsTruthy v

/-- Decimal digits of the fractional part of `n/den` (`n < den`), most
significant first, stopping when the expansion terminates or after
`fuel` digits (JavaScript prints at most 17 significant digits; the
numeric values of this pipeline are small integers, for which this
function is not exercised). -/
def fracDigitsAux : Nat → Nat → Nat → List Char
  | 0, _, _ => []
  | _ + 1, 0, _ => []
  | fuel + 1, r, den =>
    let r10 := r * 10
    Char.ofNat (48 + r10 / den) :: fracDigitsAux fuel (r10 % den) den

/-- Decimal rendering of a JavaScript number (`String(n)`): plain
decimal notation, exact for the integral and terminating-decimal values
this pipeline produces. -/
def numToString (q : ℚ) : String :=
  if q.den = 1 then toString q.num
  else
    (if q.num < 0 then "-" else "") ++ toString (q.num.natAbs / q.den) ++ "." ++
      String.mk (fracDigitsAux 17 (q.num.natAbs % q.den) q.den)

/-- Recognizes the JavaScript `null` value. -/
def JVal.isNull : JVal → Bool
  | .null => true
  | _ => false

mutual

/-- `String(v)` for a defined value.  Arrays stringify as the
comma-join of their elements with `null` elements rendered empty;
objects as `"[object Object]"`. -/
def jsToString : JVal → String
  | .null => "null"
  | .bool b => cond b "true" "false"
  | .num q => numToString q
  | .str s => s
  | .obj _ => "[object Object]"
  | .arr xs => String.intercalate "," (jsArrStrings xs)

/-- The element strings of `Array.prototype.toString` (`join(",")`):
`null` elements render empty. -/
def jsArrStrings : List JVal → List String
  | [] => []
  | JVal.null :: rest => "" :: jsArrStrings rest
  | v :: rest => jsToString v :: jsArrStrings rest

end

/-- Natural number denoted by a list of decimal digit characters. -/
def digitsToNat (ds : List Char) : ℕ :=
  ds.foldl (fun a c => a * 10 + (c.toNat - 48)) 0

/-- `10 ^ n` as a rational. -/
def pow10 (n : ℕ) : ℚ := (10 : ℚ) ^ n

/-- `Number(s)` for a string `s`: the JavaScript string-to-number
coercion, `none` for `NaN`.  Whitespace-trimmed; the empty string is
`0`; otherwise an optionally signed decimal literal with optional
fractional part and exponent.  (Hexadecimal/binary/`Infinity` literals
do not occur in this pipeline and are not modelled.) -/
def parseNumeric (s : String) : Option ℚ :=
  let cs := (s.toList.dropWhile isRegexWs).reverse.dropWhile isRegexWs |>.reverse
  if cs.isEmpty then some 0
  else
    let (sign, cs₁) : ℚ × List Char :=
      match cs with
      | '-' :: rest => (-1, rest)
      | '+' :: rest => (1, rest)
      | rest => (1, rest)
    let intD := cs₁.takeWhile Char.isDigit
    let afterInt := cs₁.dropWhile Char.isDigit
    let (fracD, afterFrac) : List Char × List Char :=
      match afterInt with
      | '.' :: rest => (rest.takeWhile Char.isDigit, rest.dropWhile Char.isDigit)
      | rest => ([], rest)
    if intD.isEmpty ∧ fracD.isEmpty then none
    else
      let mant : ℚ := (digitsToNat intD : ℚ) + (digitsToNat fracD : ℚ) / pow10 fracD.length
      match afterFrac with
      | [] => some (sign * mant)
      | e :: rest =>
        if e = 'e' ∨ e = 'E' then
          let (esign, rest₁) : Bool × List Char :=
            match rest with
            | '-' :: r => (true, r)
            | '+' :: r => (false, r)
            | r => (false, r)
          let expD := rest₁.takeWhile Char.isDigit
          if expD.isEmpty ∨ ¬(rest₁.dropWhile Char.isDigit).isEmpty then none
          else
            let ex := digitsToNat expD
            some (sign * (if esign then mant / pow10 ex else mant * pow10 ex))
        else none

/-- `Number(v)` for a defined value (`none` is `NaN`).  Arrays and
objects coerce through their string form, as in JavaScript. -/
def jsToNumber : JVal → Option ℚ
  | .null => some 0
  | .bool b => some (if b then 1 else 0)
  | .num q => some q
  | .str s => parseNumeric s
  | .arr xs => parseNumeric (jsToString (.arr xs))
  | .obj fs => parseNumeric (jsToString (.obj fs))

/-- `Number(v)` for a possibly-`undefined` value: `Number(undefined)` is `NaN`. -/
def jsToNumberOpt : Option JVal → Option ℚ
  | none => none
  | some v => jsToNumber v

/-- Property read `v[k]` on a defined value: named properties exist only
on objects; with duplicate keys the last occurrence wins (as for
`JSON.parse`). -/
def getField : JVal → String → Option JVal
  | .obj fields, k => (fields.reverse).lookup k
  | _, _ => none

/-- Optional-chain property read `v?.[k]`. -/
def getF (v : Option JVal) (k : String) : Option JVal :=
  match v with
  | none => none
  | some w => getField w k

/-! ### Strict JSON parsing (`JSON.parse`)

`backend/index.js` wraps `JSON.parse` as `parseJsonStrict`; the model
below implements the strict JSON grammar (values, objects, arrays,
strings with escapes, numbers without leading zeros, `true`/`false`/
`null`, JSON whitespace).  Parsing functions consume a character list
and return the parsed value together with the unconsumed rest; `fuel`
bounds the recursion depth and is chosen large enough at the top
level. -/

/-- Skip strict-JSON whitespace. -/
def skipWs (cs : List Char) : List Char := cs.dropWhile isJsonWs

/-- Value of a hexadecimal digit. -/
def hexVal (c : Char) : Option Nat :=
  if c.isDigit then some (c.toNat - 48)
  else if 'a' ≤ c ∧ c ≤ 'f' then some (c.toNat - 87)
  else if 'A' ≤ c ∧ c ≤ 'F' then some (c.toNat - 55)
  else none

/-- Body of a JSON string literal, after the opening quote: plain
characters (raw control characters are rejected), escapes, and the
closing quote.  Accumulates characters in reverse. -/
def parseStringBody : Nat → List Char → List Char → Option (String × List Char)
  | 0, _, _ => none
  | fuel + 1, acc, cs =>
    match cs with
    | [] => none
    | '"' :: rest => some (String.mk acc.reverse, rest)
    | '\\' :: e :: rest =>
      if e = '"' then parseStringBody fuel ('"' :: acc) rest
      else if e = '\\' then parseStringBody fuel ('\\' :: acc) rest
      else if e = '/' then parseStringBody fuel ('/' :: acc) rest
      else if e = 'b' then parseStringBody fuel (Char.ofNat 8 :: acc) rest
      else if e = 'f' then parseStringBody fuel (Char.ofNat 12 :: acc) rest
      else if e = 'n' then parseStringBody fuel ('\n' :: acc) rest
      else if e = 'r' then parseStringBody fuel ('\r' :: acc) rest
      else if e = 't' then parseStringBody fuel ('\t' :: acc) rest
      else if e = 'u' then
        match rest with
        | h₁ :: h₂ :: h₃ :: h₄ :: rest' =>
          match hexVal h₁, hexVal h₂, hexVal h₃, hexVal h₄ with
          | some a, some b, some c, some d =>
            parseStringBody fuel (Char.ofNat (((a * 16 + b) * 16 + c) * 16 + d) :: acc) rest'
          | _, _, _, _ => none
        | _ => none
      else none
    | c :: rest =>
      if c.toNat < 32 then none else parseStringBody fuel (c :: acc) rest

/-- A JSON number at the head of the input: optional minus sign, integer
part without leading zeros, optional fraction, optional exponent. -/
def parseJsonNumber (cs : List Char) : Option (JVal × List Char) :=
  let (sign, cs₁) : ℚ × List Char :=
    match cs with
    | '-' :: rest => (-1, rest)
    | rest => (1, rest)
  let intD := cs₁.takeWhile Char.isDigit
  let afterInt := cs₁.dropWhile Char.isDigit
  if intD.isEmpty then none
  else if 2 ≤ intD.length ∧ intD.headD ' ' = '0' then none
  else
    let (fracD, afterFrac) : List Char × List Char :=
      match afterInt with
      | '.' :: rest => (rest.takeWhile Char.isDigit, rest.dropWhile Char.isDigit)
      | rest => ([], rest)
    if (match afterInt with | '.' :: _ => fracD.isEmpty | _ => false) then none
    else
      let mant : ℚ := (digitsToNat intD : ℚ) + (digitsToNat fracD : ℚ) / pow10 fracD.length
      match afterFrac with
      | e :: rest =>
        if e = 'e' ∨ e = 'E' then
          let (esign, rest₁) : Bool × List Char :=
            match rest with
            | '-' :: r => (true, r)
            | '+' :: r => (false, r)
            | r => (false, r)
          let expD := rest₁.takeWhile Char.isDigit
          if expD.isEmpty then none
          else
            let ex := digitsToNat expD
            some (.num (sign * (if esign then mant / pow10 ex else mant * pow10 ex)),
              rest₁.dropWhile Char.isDigit)
        else some (.num (sign * mant), afterFrac)
      | [] => some (.num (sign * mant), [])

mutual

/-- A JSON value at the head of the input (leading whitespace already
skipped). -/
def parseValue : Nat → List Char → Option (JVal × List Char)
  | 0, _ => none
  | fuel + 1, cs =>
    match cs with
    | [] => none
    | c :: rest =>
      if c = braceOpen then
        match skipWs rest with
        | c₁ :: r₁ =>
          if c₁ = braceClose then some (.obj [], r₁)
          else parseMembers fuel (c₁ :: r₁) []
        | [] => none
      else if c = '[' then
        match skipWs rest with
        | ']' :: r₁ => some (.arr [], r₁)
        | cs₁ => parseElems fuel cs₁ []
      else if c = '"' then
        match parseStringBody (fuel + 1) [] rest with
        | some (s, r) => some (.str s, r)
        | none => none
      else if c = 't' then
        if ['t', 'r', 'u', 'e'].isPrefixOf cs then some (.bool true, cs.drop 4) else none
      else if c = 'f' then
        if ['f', 'a', 'l', 's', 'e'].isPrefixOf cs then some (.bool false, cs.drop 5) else none
      else if c = 'n' then
        if ['n', 'u', 'l', 'l'].isPrefixOf cs then some (.null, cs.drop 4) else none
      else if c = '-' ∨ c.isDigit then parseJsonNumber cs
      else none

/-- Members of a JSON object, positioned at the start of a member;
`acc` holds the members parsed so far, in reverse. -/
def parseMembers : Nat → List Char → List (String × JVal) → Option (JVal × List Char)
  | 0, _, _ => none
  | fuel + 1, cs, acc =>
    match cs with
    | '"' :: rest =>
      match parseStringBody (fuel + 1) [] rest with
      | some (k, r₁) =>
        match skipWs r₁ with
        | ':' :: r₂ =>
          match parseValue fuel (skipWs r₂) with
          | some (v, r₃) =>
            match skipWs r₃ with
            | ',' :: r₄ => parseMembers fuel (skipWs r₄) ((k, v) :: acc)
            | c :: r₄ =>
              if c = braceClose then some (.obj ((k, v) :: acc).reverse, r₄) else none
            | [] => none
          | none => none
        | _ => none
      | none => none
    | _ => none

/-- Elements of a JSON array, positioned at the start of an element;
`acc` holds the elements parsed so far, in reverse. -/
def parseElems : Nat → List Char → List JVal → Option (JVal × List Char)
  | 0, _, _ => none
  | fuel + 1, cs, acc =>
    match parseValue fuel cs with
    | some (v, r₁) =>
      match skipWs r₁ with
      | ',' :: r₂ => parseElems fuel (skipWs r₂) (v :: acc)
      | ']' :: r₂ => some (.arr (v :: acc).reverse, r₂)
      | _ => none
    | none => none

end

/-- `parseJsonStrict` from `backend/index.js`: `JSON.parse`, returning
`none` where `JSON.parse` throws.  The whole (whitespace-trimmed) text
must be a single JSON value. -/
def parseJsonStrict (s : String) : Option JVal :=
  match parseValue (2 * s.toList.length + 16) (skipWs s.toList) with
  | some (v, rest) => if (skipWs rest).isEmpty then some v else none
  | none => none

/-! ### Response extractor (`tryExtractJson`, backend/index.js)

Tier 2 of the extractor is the regex
`/(three backticks)(?:json)?\s*([^]*?)\s*(three backticks)/i`: it finds
the first triple-backtick fence, optionally skips a case-insensitive
`json` tag and leading whitespace, and captures up to the next fence,
trimming trailing whitespace.  `findFenced` below models exactly that
leftmost match (if the first fence has no closing fence anywhere after
it, no later starting position can complete a match either, since any
later fence would itself have served as the closing fence). -/

/-- Index of the first occurrence of `pat` in `cs`, if any. -/
def findSub (pat : List Char) : List Char → Option Nat
  | [] => if pat.isEmpty then some 0 else none
  | c :: rest =>
    if pat.isPrefixOf (c :: rest) then some 0
    else (findSub pat rest).map (· + 1)

/-- The triple-backtick fence. -/
def fenceChars : List Char := [backtick, backtick, backtick]

/-- Drop trailing regex whitespace. -/
def dropTrailWs (cs : List Char) : List Char :=
  (cs.reverse.dropWhile isRegexWs).reverse

/-- The capture group of the fenced-block regex: contents of the first
triple-backtick fence, with an optional case-insensitive `json` tag and
the surrounding whitespace stripped; `none` when no complete fence
exists. -/
def findFenced (text : String) : Option String :=
  let cs := text.toList
  match findSub fenceChars cs with
  | none => none
  | some i =>
    let afterOpen := cs.drop (i + 3)
    let afterTag :=
      if (afterOpen.take 4).map Char.toLower = ['j', 's', 'o', 'n'] then afterOpen.drop 4
      else afterOpen
    let content := afterTag.dropWhile isRegexWs
    match findSub fenceChars content with
    | none => none
    | some j => some (String.mk (dropTrailWs (content.take j)))

/-- Tier 3's slice: from the first `{` to the last `}` (inclusive),
provided the last `}` comes strictly after the first `{`. -/
def braceSlice (text : String) : Option String :=
  let cs := text.toList
  match findSub [braceOpen] cs, findSub [braceClose] cs.reverse with
  | some i, some j' =>
    let j := cs.length - 1 - j'
    if i < j then some (String.mk ((cs.take (j + 1)).drop i)) else none
  | _, _ => none

/-- The second extraction strategy: strict-parse the capture of the
fenced-block regex, provided the capture is nonempty
(`if (fenced?.[1])` — an empty capture is falsy and skips the
attempt). -/
def tier2Result (text : String) : Option JVal :=
  match findFenced text with
  | some c => if c ≠ "" then parseJsonStrict c else none
  | none => none

/-- `tryExtractJson` from `backend/index.js`: empty text yields `null`;
otherwise parse the whole text as strict JSON; otherwise parse the
contents of a fenced code block when that capture is nonempty;
otherwise parse the first-`{`-to-last-`}` slice; otherwise `null`. -/
def tryExtractJson (text : String) : Option JVal :=
  if text = "" then none
  else
    match parseJsonStrict text with
    | some v => some v
    | none =>
      match tier2Result text with
      | some v => some v
      | none =>
        match braceSlice text with
        | some s => parseJsonStrict s
        | none => none

/-! ### Frontend quiz domain (`src/components/QuizManager.tsx`) -/

/-- `QuestionLevel`. -/
inductive Level where
  | easy | medium | hard
  deriving DecidableEq, Repr

/-- `QuestionType`. -/
inductive QType where
  | mcq | text | code
  deriving DecidableEq, Repr

/-- `LEVEL_POINTS` / `pointsForLevel`. -/
def pointsForLevel : Level → ℚ
  | .easy => 1
  | .medium => 2
  | .hard => 3

/-- The string form of a level (as stored in the `level` field). -/
def levelToStr : Level → String
  | .easy => "easy"
  | .medium => "medium"
  | .hard => "hard"

/-- The string form of a question type (as stored in the `type` field). -/
def typeToStr : QType → String
  | .mcq => "mcq"
  | .text => "text"
  | .code => "code"

/-- Frontend `normalizeLevel`: the value must be (strictly equal to) one
of the three level strings, otherwise `medium`. -/
def normalizeLevel (v : Option JVal) : Level :=
  match v with
  | some (JVal.str s) =>
    if s = "easy" then .easy
    else if s = "medium" then .medium
    else if s = "hard" then .hard
    else .medium
  | _ => .medium

/-- Frontend `normalizeType`: the value must be one of the three type
strings, otherwise `text`. -/
def normalizeType (v : Option JVal) : QType :=
  match v with
  | some (JVal.str s) =>
    if s = "mcq" then .mcq
    else if s = "text" then .text
    else if s = "code" then .code
    else .text
  | _ => .text

/-- The variant part of a normalized frontend `Question` (discriminated
union `MCQ | TextQ | CodeQ`). -/
inductive QPayload where
  | mcq (options : List String) (correctIndex : ℚ)
  | text (keywords : List String)
  | code (starterCode : String) (expectedKeyPoints : List String)
  deriving DecidableEq, Repr

/-- A normalized frontend `Question` (`BaseQuestion` plus variant). -/
structure QuestionF where
  id : String
  q : String
  level : Level
  points : ℚ
  payload : QPayload
  deriving DecidableEq, Repr

/-- The `type` discriminant of a question. -/
def QuestionF.qtype (qn : QuestionF) : QType :=
  match qn.payload with
  | .mcq _ _ => .mcq
  | .text _ => .text
  | .code _ _ => .code

/-- A frontend `Quiz`. -/
structure QuizF where
  title : String
  description : String
  questions : List QuestionF
  deriving DecidableEq, Repr

/-- `String(x || dflt)`: the string form of `x` when truthy, otherwise
the (string) default. -/
def jsStrOr (v : Option JVal) (dflt : String) : String :=
  match v with
  | some w => if jsTruthy w then jsToString w else dflt
  | none => dflt

/-- `xs.map(x => String(x || "")).filter(Boolean)` on a value expected
to be an array: every entry coerced to a string, empty entries dropped;
non-arrays yield `[]`. -/
def coerceStrArr (v : Option JVal) : List String :=
  match v with
  | some (JVal.arr xs) =>
    (xs.map (fun o => if jsTruthy o then jsToString o else "")).filter (fun s => s ≠ "")
  | _ => []

/-- `count` placeholder options `Option (k+1)`, `Option (k+2)`, …: the
strings pushed by the padding loop once the list has `k` entries. -/
def padFrom (k : ℕ) : ℕ → List String
  | 0 => []
  | n + 1 => ("Option " ++ toString (k + 1)) :: padFrom (k + 1) n

/-- The `while (options.length < 4) options.push("Option " + (length+1))`
padding loop: each iteration appends a placeholder named after the
current length, until there are four options. -/
def padOptions (l : List String) : List String :=
  l ++ padFrom l.length (4 - l.length)

/-- Frontend `normalizeQuestion`. -/
def normalizeQuestion (input : Option JVal) (index : ℕ) : QuestionF :=
  let type := normalizeType (getF input "type")
  let level := normalizeLevel (getF input "level")
  let id := jsStrOr (getF input "id") ("q" ++ toString (index + 1))
  let qtext := jsStrOr (getF input "q") ("Question " ++ toString (index + 1))
  let points : ℚ :=
    match jsToNumberOpt (getF input "points") with
    | some n => ((max 1 (jsRound n) : ℤ) : ℚ)
    | none => pointsForLevel level
  match type with
  | .mcq =>
    { id, q := qtext, level, points,
      payload := .mcq (padOptions ((coerceStrArr (getF input "options")).take 4))
        (max 0 (min 3 ((jsToNumberOpt (getF input "correctIndex")).getD 0))) }
  | .code =>
    { id, q := qtext, level, points,
      payload := .code (jsStrOr (getF input "starterCode") "")
        (coerceStrArr (getF input "expectedKeyPoints")) }
  | .text =>
    { id, q := qtext, level, points,
      payload := .text (coerceStrArr (getF input "keywords")) }

/-- `rawQuestions.map((q, i) => normalizeQuestion(q, i))`, carrying the
index. -/
def normIdx (n : ℕ) : List JVal → List QuestionF
  | [] => []
  | v :: vs => normalizeQuestion (some v) n :: normIdx (n + 1) vs

/-- The canonical default MCQ question substituted when normalization
yields zero questions. -/
def defaultQuestion : QuestionF :=
  { id := "q1", q := "What does function sum(a, b) return?", level := .easy, points := 1,
    payload := .mcq ["a - b", "a + b", "a * b", "b - a"] 1 }

/-- `Array.isArray(input?.questions) ? input.questions : []`. -/
def rawQuestionsOf (input : Option JVal) : List JVal :=
  match getF input "questions" with
  | some (JVal.arr xs) => xs
  | _ => []

/-- Frontend `normalizeQuiz`. -/
def normalizeQuiz (input : Option JVal) : QuizF :=
  let questions := normIdx 0 (rawQuestionsOf input)
  { title := jsStrOr (getF input "title") "Practice Quiz"
    description := jsStrOr (getF input "description") "AI-ready coding quiz"
    questions := if questions.isEmpty then [defaultQuestion] else questions }

/-- The raw object literal passed to `normalizeQuiz` by
`createSampleQuiz`. -/
def sampleQuizInput : JVal :=
  .obj [
    ("title", .str "Sample: sum function quiz"),
    ("description", .str "Small quiz to test the sum example"),
    ("questions", .arr [
      .obj [
        ("id", .str "q1"), ("type", .str "mcq"),
        ("q", .str "What does sum(a, b) return?"),
        ("options", .arr [.str "a - b", .str "a + b", .str "a * b", .str "b - a"]),
        ("correctIndex", .num 1), ("points", .num 1), ("level", .str "easy")],
      .obj [
        ("id", .str "q2"), ("type", .str "text"),
        ("q", .str "Explain in one sentence what sum(a, b) does."),
        ("points", .num 2), ("level", .str "medium"),
        ("keywords", .arr [.str "add", .str "sum", .str "two", .str "numbers"])],
      .obj [
        ("id", .str "q3"), ("type", .str "code"),
        ("q", .str "Write a function multiply(a, b) that returns a * b."),
        ("points", .num 3), ("level", .str "hard"),
        ("starterCode", .str "function multiply(a, b) \x7b\n  // your code\n\x7d"),
        ("expectedKeyPoints", .arr [.str "function declaration", .str "return a * b"])]])]

/-- `createSampleQuiz`. -/
def createSampleQuiz : QuizF := normalizeQuiz (some sampleQuizInput)

/-- Encoding of a normalized question back to the JavaScript value it
is at runtime (used to re-apply the normalizer to its own output). -/
def questionToJVal (qn : QuestionF) : JVal :=
  let base : List (String × JVal) :=
    [("id", .str qn.id), ("type", .str (typeToStr qn.qtype)), ("q", .str qn.q),
     ("level", .str (levelToStr qn.level)), ("points", .num qn.points)]
  match qn.payload with
  | .mcq options correctIndex =>
    .obj (base ++ [("options", .arr (options.map .str)), ("correctIndex", .num correctIndex)])
  | .text keywords =>
    .obj (base ++ [("keywords", .arr (keywords.map .str))])
  | .code starterCode expectedKeyPoints =>
    .obj (base ++ [("starterCode", .str starterCode),
      ("expectedKeyPoints", .arr (expectedKeyPoints.map .str))])

/-- Encoding of a normalized quiz back to its runtime JavaScript value. -/
def quizToJVal (qz : QuizF) : JVal :=
  .obj [("title", .str qz.title), ("description", .str qz.description),
    ("questions", .arr (qz.questions.map questionToJVal))]

/-! ### Scoring engine (`grade` in QuizManager.tsx) -/

/-- A submitted answer value (`number | string | null`). -/
inductive AVal where
  | num (n : ℤ)
  | str (s : String)
  | null
  deriving DecidableEq, Repr

/-- An `Answer` record.  `correct` is `boolean | null`; `none` models
`null` (the ungradable marker). -/
structure AnswerF where
  id : String
  type : QType
  value : AVal
  correct : Option Bool
  pointsAwarded : ℚ
  deriving DecidableEq, Repr

/-- The effective points of a question in the grading pass:
`Number(q.points || pointsForLevel(q.level))` (the `Number` wrapper is
the identity on a number; `||` falls back when `points` is `0`). -/
def effPoints (qn : QuestionF) : ℚ :=
  if qn.points ≠ 0 then qn.points else pointsForLevel qn.level

/-- `String(a?.value || "")`: the lower-case-ready text of a submitted
answer (missing answers and falsy values give the empty string). -/
def answerTextOf (a : Option AnswerF) : String :=
  match a with
  | none => ""
  | some aa =>
    match aa.value with
    | .num n => if n = 0 then "" else toString n
    | .str s => s
    | .null => ""

/-- `a?.value ?? ""`: the value stored back into the graded answer for
text/code questions. -/
def valueOrEmpty (a : Option AnswerF) : AVal :=
  match a with
  | none => .str ""
  | some aa =>
    match aa.value with
    | .null => .str ""
    | v => v

/-- The result of grading one question: the produced `Answer`, the
amount added to `earned`, and the weak-area tag added (if any). -/
structure GradedOne where
  ans : AnswerF
  earnedDelta : ℚ
  weakTag : Option String
  deriving DecidableEq, Repr

/-- The body of the `quiz.questions.forEach` loop in `grade`, for one
question, given the (possibly missing) stored answer `a`. -/
def gradeOne (qn : QuestionF) (a : Option AnswerF) : GradedOne :=
  let pts := effPoints qn
  match qn.payload with
  | .mcq _ correctIndex =>
    let selected : Option ℤ :=
      match a with
      | some aa => match aa.value with | .num n => some n | _ => none
      | none => none
    let correct : Bool :=
      match selected with
      | some n => decide ((n : ℚ) = correctIndex)
      | none => false
    { ans := { id := qn.id
               type := .mcq
               value := (match selected with | some n => .num n | none => .null)
               correct := some correct
               pointsAwarded := if correct then pts else 0 }
      earnedDelta := if correct then pts else 0
      weakTag := if correct then none else some ("mcq-" ++ levelToStr qn.level) }
  | .text keywords =>
    let answerText := lowerStr (answerTextOf a)
    if keywords.isEmpty then
      { ans := { id := qn.id
                 type := .text
                 value := valueOrEmpty a
                 correct := none
                 pointsAwarded := 0 }
        earnedDelta := 0
        weakTag := some ("text-" ++ levelToStr qn.level) }
    else
      let matched := (keywords.filter (fun kw => includesStr answerText (lowerStr kw))).length
      let fraction : ℚ := min 1 ((matched : ℚ) / ((max 1 keywords.length : ℕ) : ℚ))
      let awarded : ℚ := ((jsRound (fraction * pts) : ℤ) : ℚ)
      { ans := { id := qn.id
                 type := .text
                 value := valueOrEmpty a
                 correct := some (decide (awarded = pts))
                 pointsAwarded := awarded }
        earnedDelta := awarded
        weakTag := if awarded < pts then some ("text-" ++ levelToStr qn.level) else none }
  | .code _ expectedKeyPoints =>
    let codeAnswer := lowerStr (answerTextOf a)
    let expected := expectedKeyPoints.map lowerStr
    if expected.isEmpty then
      { ans := { id := qn.id
                 type := .code
                 value := valueOrEmpty a
                 correct := none
                 pointsAwarded := 0 }
        earnedDelta := 0
        weakTag := some ("code-" ++ levelToStr qn.level) }
    else
      let matched := (expected.filter (fun kp => includesStr codeAnswer kp)).length
      let fraction : ℚ := min 1 ((matched : ℚ) / ((max 1 expected.length : ℕ) : ℚ))
      let awarded : ℚ := ((jsRound (fraction * pts) : ℤ) : ℚ)
      { ans := { id := qn.id
                 type := .code
                 value := valueOrEmpty a
                 correct := some (decide (awarded = pts))
                 pointsAwarded := awarded }
        earnedDelta := awarded
        weakTag := if awarded < pts then some ("code-" ++ levelToStr qn.level) else none }

/-- `weakAreas.add(tag)`: a JavaScript `Set` keeps insertion order and
ignores re-insertions. -/
def addWeak (l : List String) (t : Option String) : List String :=
  match t with
  | none => l
  | some s => if s ∈ l then l else l ++ [s]

/-- The running accumulator of the grading loop. -/
structure GradeAcc where
  answers : List AnswerF
  earned : ℚ
  total : ℚ
  weak : List String
  deriving Repr

/-- The grading loop over the questions (per-question `Answer`s in
question order; `total` accumulates before the per-type branch, as in
the source). -/
def gradeFold (m : String → Option AnswerF) (acc : GradeAcc) : List QuestionF → GradeAcc
  | [] => acc
  | qn :: rest =>
    let g := gradeOne qn (m qn.id)
    gradeFold m
      { answers := acc.answers ++ [g.ans]
        earned := acc.earned + g.earnedDelta
        total := acc.total + effPoints qn
        weak := addWeak acc.weak g.weakTag } rest

/-- The result of the grading pass. -/
structure GradeRes where
  answers : List AnswerF
  earned : ℚ
  total : ℚ
  weak : List String
  score : ℤ
  deriving Repr

/-- `grade` (pure part): per-question answers, earned/total points, the
weak-area set, and the aggregate score
`total > 0 ? Math.round((earned / total) * 100) : 0`. -/
def gradeQuiz (qz : QuizF) (m : String → Option AnswerF) : GradeRes :=
  let acc := gradeFold m ⟨[], 0, 0, []⟩ qz.questions
  { answers := acc.answers
    earned := acc.earned
    total := acc.total
    weak := acc.weak
    score := if acc.total > 0 then jsRound (acc.earned / acc.total * 100) else 0 }

/-! ### Session state (`mode` in QuizManager.tsx)

The component's `mode` is `"editor" | "take" | "results"`, which the
specification names `authoring | taking | graded`. -/

/-- The session mode.  `editor` is the spec's `authoring`, `take` is
`taking`, `results` is `graded`. -/
inductive Mode where
  | editor | take | results
  deriving DecidableEq, Repr

/-- The slice of component state that the grading transition touches. -/
structure SessionF where
  mode : Mode
  quiz : Option QuizF
  answers : String → Option AnswerF
  score : Option ℤ

/-- Sequential per-id assignment into `nextAnswers = { ...answers }`:
for each id the last graded answer with that id wins, ids not graded
keep their stored answer. -/
def updateAnswers (orig : String → Option AnswerF) (graded : List AnswerF) :
    String → Option AnswerF :=
  fun k =>
    match (graded.filter (fun a => a.id = k)).getLast? with
    | some a => some a
    | none => orig k

/-- The `grade` click handler as a state transition: a no-op when no
quiz is loaded (`if (!quiz) return`), otherwise grade and enter
`results` — regardless of the current mode. -/
def gradeAction (s : SessionF) : SessionF :=
  match s.quiz with
  | none => s
  | some qz =>
    let r := gradeQuiz qz s.answers
    { s with
      answers := updateAnswers s.answers r.answers
      score := some r.score
      mode := .results }

/-! ### Proctoring collector (`pushEvent` in QuizManager.tsx) -/

/-- A `ProctorEvent` (the `at` timestamp field is quoted because `at`
is a Lean keyword). -/
structure PEvent where
  type : String
  detail : String
  «at» : String
  deriving DecidableEq, Repr

/-- `Array.prototype.slice(-n)`: the last `n` elements. -/
def jsSliceLast (n : ℕ) (l : List PEvent) : List PEvent :=
  l.drop (l.length - n)

/-- The proctoring log and warnings counter. -/
structure ProctorState where
  events : List PEvent
  warnings : ℕ
  deriving DecidableEq, Repr

/-- `pushEvent`: append the event, keep the most recent 50, and
increment `warnings` by one. -/
def pushEvent (s : ProctorState) (e : PEvent) : ProctorState :=
  { events := jsSliceLast 50 (s.events ++ [e]), warnings := s.warnings + 1 }

/-- A whole sequence of captured events, in order. -/
def pushEvents (s : ProctorState) (es : List PEvent) : ProctorState :=
  es.foldl pushEvent s

/-! ### Backend (`backend/index.js`) -/

/-- `clampNumber(value, min, max, fallback)`: `fallback` for `NaN`,
otherwise round and clamp into `[min, max]`. -/
def clampNumber (v : Option ℚ) (lo hi fallback : ℤ) : ℤ :=
  match v with
  | none => fallback
  | some n => max lo (min hi (jsRound n))

namespace Backend

/-- Backend `LEVEL_POINTS`. -/
def levelPoints : Level → ℤ
  | .easy => 1
  | .medium => 2
  | .hard => 3

/-- Backend `normalizeLevel`: `String(value || "").toLowerCase()`
compared against the three level strings, defaulting to `medium`. -/
def normalizeLevel (v : Option JVal) : Level :=
  let s := lowerStr (jsStrOr v "")
  if s = "easy" then .easy
  else if s = "medium" then .medium
  else if s = "hard" then .hard
  else .medium

/-- The variant part of a backend question. -/
inductive BPayload where
  | mcq (options : List String) (correctIndex : ℤ)
  | text (keywords : List String)
  | code (starterCode : String) (expectedKeyPoints : List String)
  deriving DecidableEq, Repr

/-- A backend-normalized question.  `id` keeps the raw truthy value
unconverted (`raw?.id || "q<idx+1>"` — no `String(...)` wrapper). -/
structure BQuestion where
  id : JVal
  level : Level
  q : String
  points : ℤ
  payload : BPayload

/-- Backend `normalizeQuestion`.  The `type` test
`["mcq","text","code"].includes(raw?.type)` accepts exactly the three
type strings, like the frontend's `normalizeType`. -/
def normalizeQuestion (raw : Option JVal) (idx : ℕ) : BQuestion :=
  let type := normalizeType (getF raw "type")
  let level := Backend.normalizeLevel (getF raw "level")
  let id : JVal :=
    match getF raw "id" with
    | some w => if jsTruthy w then w else .str ("q" ++ toString (idx + 1))
    | none => .str ("q" ++ toString (idx + 1))
  let q := jsStrOr (getF raw "q") ("Question " ++ toString (idx + 1))
  let points := clampNumber (jsToNumberOpt (getF raw "points")) 1 10 (levelPoints level)
  match type with
  | .mcq =>
    { id, level, q, points,
      payload := .mcq (padOptions ((coerceStrArr (getF raw "options")).take 4))
        (clampNumber (jsToNumberOpt (getF raw "correctIndex")) 0 3 0) }
  | .code =>
    { id, level, q, points,
      payload := .code (jsStrOr (getF raw "starterCode") "")
        (coerceStrArr (getF raw "expectedKeyPoints")) }
  | .text =>
    { id, level, q, points, payload := .text (coerceStrArr (getF raw "keywords")) }

/-- Indexed map of `normalizeQuestion` over the raw questions. -/
def normIdx (n : ℕ) : List JVal → List BQuestion
  | [] => []
  | v :: vs => Backend.normalizeQuestion (some v) n :: Backend.normIdx (n + 1) vs

/-- A backend-normalized quiz. -/
structure BQuiz where
  title : String
  description : String
  questions : List BQuestion

/-- Backend `normalizeQuiz`: truncate to `fallbackCount` *before*
per-question coercion; throw (here: `Except.error`) when no questions
remain. -/
def normalizeQuiz (parsed : Option JVal) (fallbackCount : ℕ) : Except String BQuiz :=
  let rawQuestions :=
    match getF parsed "questions" with
    | some (JVal.arr xs) => xs
    | _ => []
  let questions := Backend.normIdx 0 (rawQuestions.take fallbackCount)
  if questions.isEmpty then .error "AI response did not contain questions"
  else
    .ok { title := jsStrOr (getF parsed "title") "AI Generated Quiz"
          description := jsStrOr (getF parsed "description") "Practice quiz generated by AI"
          questions := questions }

end Backend

/-- A `sendError` response: HTTP status, error code, message, detail. -/
structure ApiFailure where
  status : ℕ
  code : String
  message : String
  detail : Option String
  deriving DecidableEq, Repr

/-- The post-model part of the `/api/quiz/generate` route: extract JSON
from the model text `out`; a failed extraction is a 502
`INVALID_AI_OUTPUT` carrying the leading 500 characters of `out`; a
`normalizeQuiz` throw is caught by the route's `catch` and becomes a
500 `UPSTREAM_AI_ERROR` carrying the thrown message. -/
def generateHandler (out : String) (count : ℕ) : Except ApiFailure Backend.BQuiz :=
  match tryExtractJson out with
  | none =>
    .error ⟨502, "INVALID_AI_OUTPUT", "Model response was not valid JSON",
      some (String.mk (out.toList.take 500))⟩
  | some parsed =>
    match Backend.normalizeQuiz (some parsed) count with
    | .error msg => .error ⟨500, "UPSTREAM_AI_ERROR", "Failed to generate quiz", some msg⟩
    | .ok quiz => .ok quiz

/-- The attempt record stored by `/api/analytics/attempt` (the `id` and
`createdAt` fields, a UUID and a timestamp, and the passed-through
`proctorSummary` are outside the scope of the clamping claims). -/
structure AttemptRecord where
  quizTitle : String
  score : ℤ
  totalQuestions : ℤ
  durationSec : ℤ
  weakAreas : List String
  deriving DecidableEq, Repr

/-- The attempt constructed from the request payload by
`/api/analytics/attempt`. -/
def attemptFromPayload (payload : Option JVal) : AttemptRecord :=
  { quizTitle := jsStrOr (getF payload "quizTitle") "Quiz"
    score := clampNumber (jsToNumberOpt (getF payload "score")) 0 100 0
    totalQuestions := clampNumber (jsToNumberOpt (getF payload "totalQuestions")) 1 100 1
    durationSec := clampNumber (jsToNumberOpt (getF payload "durationSec")) 0 14400 0
    weakAreas :=
      (match getF payload "weakAreas" with
        | some (JVal.arr _) => (coerceStrArr (getF payload "weakAreas")).take 8
        | _ => []) }

theorem lowerStr_test : lowerStr "AdD" = "add" := by decide

theorem jsRound_half_test : jsRound (1/2) = 1 := by with_unfolding_all decide

theorem parseNumeric_test : parseNumeric " 12.5 " = some (25/2) := by with_unfolding_all decide

theorem jsToString_arr_test : jsToString (.arr []) = "" := by decide

theorem parseJson_num_test : parseJsonStrict "123" = some (.num 123) := by
  with_unfolding_all rfl

theorem parseJson_obj_test :
    parseJsonStrict " \x7b\"a\": 1, \"b\": [true, null]\x7d " =
      some (.obj [("a", .num 1), ("b", .arr [.bool true, .null])]) := by
  with_unfolding_all rfl

theorem parseJson_reject_test : parseJsonStrict "01" = none := by
  with_unfolding_all rfl

theorem parseJson_empty_test : parseJsonStrict "" = none := by with_unfolding_all rfl

theorem parseJson_trailing_test : parseJsonStrict "1 x" = none := by
  with_unfolding_all rfl

theorem extract_tier2_test :
    tryExtractJson "noise \x60\x60\x60json \x7b\"a\":1\x7d \x60\x60\x60 trailer" =
      some (.obj [("a", .num 1)]) := by
  with_unfolding_all rfl

theorem extract_tier3_test :
    tryExtractJson "reply: \x7b\"a\": 2\x7d done" = some (.obj [("a", .num 2)]) := by
  with_unfolding_all rfl

theorem extract_fail_test : tryExtractJson "no json here" = none := by
  with_unfolding_all rfl

theorem sample_quiz_test :
    createSampleQuiz.title = "Sample: sum function quiz" ∧
      createSampleQuiz.questions.length = 3 ∧
      (createSampleQuiz.questions.map (·.points)) = [1, 2, 3] := by
  with_unfolding_all decide

theorem normalize_default_test :
    (normalizeQuiz (some (.obj []))).questions = [defaultQuestion] ∧
      (normalizeQuiz (some (.obj []))).title = "Practice Quiz" := by
  with_unfolding_all decide

/-! ### Concrete fixtures used by the claim theorems -/

/-- The quiz of the spec's scoring-determinism example: one MCQ with
`correctIndex = 1` and `points = 1`. -/
def mcqDemoQuiz : QuizF :=
  { title := "Demo"
    description := ""
    questions := [{ id := "q1", q := "Which?", level := .easy, points := 1
                    payload := .mcq ["a", "b", "c", "d"] 1 }] }

/-- An answers map submitting MCQ index `n` for question `q1`
(as stored by `setAnswer`). -/
def submitIdx (n : ℤ) : String → Option AnswerF := fun k =>
  if k = "q1" then some { id := "q1", type := .mcq, value := .num n, correct := none
                          pointsAwarded := 0 }
  else none

/-- The all-unanswered answers map. -/
def noAnswers : String → Option AnswerF := fun _ => none

theorem grade_mcq_eval_test :
    (gradeQuiz mcqDemoQuiz (submitIdx 1)).score = 100 ∧
      (gradeQuiz mcqDemoQuiz (submitIdx 0)).score = 0 ∧
      (gradeQuiz mcqDemoQuiz noAnswers).score = 0 := by
  with_unfolding_all decide

/-- A session that has never left authoring (`editor`) mode, with the
sample quiz the component installs on mount. -/
def authoringSession : SessionF :=
  { mode := .editor, quiz := some createSampleQuiz, answers := noAnswers, score := none }

/-- The error code of a generate response, `none` on success. -/
def handlerCode : Except ApiFailure Backend.BQuiz → Option String
  | .error e => some e.code
  | .ok _ => none

/-- The HTTP status of a generate response, `none` on success. -/
def handlerStatus : Except ApiFailure Backend.BQuiz → Option ℕ
  | .error e => some e.status
  | .ok _ => none

/-- The error detail of a generate response, `none` on success. -/
def handlerDetail : Except ApiFailure Backend.BQuiz → Option (Option String)
  | .error e => some e.detail
  | .ok _ => none

/-- Whether a generate response delivered a quiz. -/
def handlerOk : Except ApiFailure Backend.BQuiz → Bool
  | .error _ => false
  | .ok _ => true

/-! ### Helper lemmas -/

theorem clampNumber_bounds (v : Option ℚ) (lo hi fb : ℤ) (h1 : lo ≤ fb) (h2 : fb ≤ hi) :
    lo ≤ clampNumber v lo hi fb ∧ clampNumber v lo hi fb ≤ hi := by
  cases v with
  | none => exact ⟨h1, h2⟩
  | some n =>
    simp only [clampNumber]
    omega

theorem jsSliceLast_absorb (l : List PEvent) (e : PEvent) :
    jsSliceLast 50 (jsSliceLast 50 l ++ [e]) = jsSliceLast 50 (l ++ [e]) := by
  unfold jsSliceLast
  rcases le_or_lt l.length 50 with h | h
  · have : l.length - 50 = 0 := by omega
    simp [this]
  · have hlen : (l.drop (l.length - 50)).length = 50 := by
      rw [List.length_drop]; omega
    rw [List.length_append, List.length_append, hlen, List.length_singleton]
    have h1 : (50 + 1 - 50 : ℕ) = 1 := by omega
    rw [h1]
    rw [List.drop_append_of_le_length (by omega), List.drop_append_of_le_length (by omega)]
    rw [List.drop_drop]
    congr 2
    omega

theorem pushEvents_spec (es : List PEvent) :
    pushEvents ⟨[], 0⟩ es = ⟨jsSliceLast 50 es, es.length⟩ := by
  induction es using List.reverseRecOn with
  | nil => rfl
  | append_singleton l e ih =>
    unfold pushEvents at ih ⊢
    rw [List.foldl_append, ih]
    show pushEvent _ _ = _
    unfold pushEvent
    simp only [jsSliceLast_absorb, List.length_append, List.length_singleton]

theorem jsSliceLast_length (n : ℕ) (l : List PEvent) :
    (jsSliceLast n l).length = min n l.length := by
  unfold jsSliceLast
  rw [List.length_drop]
  omega

/-- A representative captured proctoring event. -/
def demoEvent : PEvent :=
  { type := "window_blur", detail := "Window lost focus", «at» := "t" }

/-! ### Claim theorems -/

/-- Claim C6: starting from an empty log, every captured event
increments `warnings` by exactly one (so `warnings` equals the number
of captured events), the log always holds exactly the most recent 50
entries (all of them when fewer were captured), and after 60 captured
events the log has exactly 50 entries while `warnings` is 60. -/
theorem C6_proctor_cap (es : List PEvent) :
    (pushEvents ⟨[], 0⟩ es).warnings = es.length ∧
      (pushEvents ⟨[], 0⟩ es).events = jsSliceLast 50 es ∧
      (pushEvents ⟨[], 0⟩ es).events.length = min 50 es.length ∧
      (pushEvents ⟨[], 0⟩ (List.replicate 60 demoEvent)).events.length = 50 ∧
      (pushEvents ⟨[], 0⟩ (List.replicate 60 demoEvent)).warnings = 60 := by
  refine ⟨?_, ?_, ?_, ?_, ?_⟩
  · rw [pushEvents_spec]
  · rw [pushEvents_spec]
  · rw [pushEvents_spec]; exact jsSliceLast_length 50 es
  · rw [pushEvents_spec, jsSliceLast_length]; rfl
  · rw [pushEvents_spec]; rfl

/-- Claim C10: whatever the request body holds, the stored attempt has
`score` in `[0, 100]`, `totalQuestions` in `[1, 100]`, `durationSec` in
`[0, 14400]`, and at most 8 weak-area strings. -/
theorem C10_attempt_clamped (payload : Option JVal) :
    0 ≤ (attemptFromPayload payload).score ∧ (attemptFromPayload payload).score ≤ 100 ∧
      1 ≤ (attemptFromPayload payload).totalQuestions ∧
      (attemptFromPayload payload).totalQuestions ≤ 100 ∧
      0 ≤ (attemptFromPayload payload).durationSec ∧
      (attemptFromPayload payload).durationSec ≤ 14400 ∧
      (attemptFromPayload payload).weakAreas.length ≤ 8 := by
  obtain ⟨s1, s2⟩ := clampNumber_bounds (jsToNumberOpt (getF payload "score")) 0 100 0
    (by omega) (by omega)
  obtain ⟨t1, t2⟩ := clampNumber_bounds (jsToNumberOpt (getF payload "totalQuestions")) 1 100 1
    (by omega) (by omega)
  obtain ⟨d1, d2⟩ := clampNumber_bounds (jsToNumberOpt (getF payload "durationSec")) 0 14400 0
    (by omega) (by omega)
  refine ⟨s1, s2, t1, t2, d1, d2, ?_⟩
  show (match getF payload "weakAreas" with
    | some (JVal.arr _) => (coerceStrArr (getF payload "weakAreas")).take 8
    | _ => []).length ≤ 8
  split
  · exact le_trans (List.length_take_le 8 _) (le_refl 8)
  · simp

/-- The `points` field produced by the backend normalizer, extracted
from the three per-type branches. -/
theorem backendQuestion_points (raw : Option JVal) (idx : ℕ) :
    (Backend.normalizeQuestion raw idx).points =
      clampNumber (jsToNumberOpt (getF raw "points")) 1 10
        (Backend.levelPoints (Backend.normalizeLevel (getF raw "level"))) := by
  unfold Backend.normalizeQuestion
  rcases htype : normalizeType (getF raw "type") <;> simp only [htype]

/-- The `points` field produced by the frontend normalizer, extracted
from the three per-type branches. -/
theorem frontendQuestion_points (input : Option JVal) (i : ℕ) :
    (normalizeQuestion input i).points =
      (match jsToNumberOpt (getF input "points") with
        | some n => ((max 1 (jsRound n) : ℤ) : ℚ)
        | none => pointsForLevel (normalizeLevel (getF input "level"))) := by
  unfold normalizeQuestion
  rcases htype : normalizeType (getF input "type") <;> simp only [htype]

theorem levelPoints_bounds (lvl : Level) :
    1 ≤ Backend.levelPoints lvl ∧ Backend.levelPoints lvl ≤ 10 := by
  cases lvl <;> simp [Backend.levelPoints]

/-- Claim C2 (counterexample): the claim asserts `points ∈ [1,10]` after
normalization on both normalizers, but the frontend normalizer has no
upper clamp: input `points = 100` stays `100`. -/
theorem C2_counterexample :
    (normalizeQuestion (some (.obj [("points", .num 100)])) 0).points = 100 ∧
      ¬((normalizeQuestion (some (.obj [("points", .num 100)])) 0).points ≤ 10) := by
  with_unfolding_all decide

/-- Claim C2 (amended): the backend normalizer clamps `points` to an
integer in `[1,10]`, defaulting by level when `Number(points)` is `NaN`
(absent or non-numeric); the frontend normalizer only rounds and clamps
from below — it always yields an integer `≥ 1` (denominator 1 in this
rational model) with the same by-level default — and has no upper
bound. -/
theorem C2_points_amended :
    (∀ (raw : Option JVal) (idx : ℕ),
      1 ≤ (Backend.normalizeQuestion raw idx).points ∧
        (Backend.normalizeQuestion raw idx).points ≤ 10) ∧
    (∀ (raw : Option JVal) (idx : ℕ), jsToNumberOpt (getF raw "points") = none →
      (Backend.normalizeQuestion raw idx).points =
        Backend.levelPoints (Backend.normalizeLevel (getF raw "level"))) ∧
    (∀ (input : Option JVal) (i : ℕ),
      1 ≤ (normalizeQuestion input i).points ∧ ((normalizeQuestion input i).points).den = 1) ∧
    (∀ (input : Option JVal) (i : ℕ), jsToNumberOpt (getF input "points") = none →
      (normalizeQuestion input i).points =
        pointsForLevel (normalizeLevel (getF input "level"))) := by
  refine ⟨?_, ?_, ?_, ?_⟩
  · intro raw idx
    rw [backendQuestion_points]
    obtain ⟨h1, h2⟩ := levelPoints_bounds (Backend.normalizeLevel (getF raw "level"))
    exact clampNumber_bounds _ 1 10 _ h1 h2
  · intro raw idx h
    rw [backendQuestion_points, h]
    rfl
  · intro input i
    rw [frontendQuestion_points]
    rcases hv : jsToNumberOpt (getF input "points") with _ | n <;> simp only [hv]
    · constructor
      · cases normalizeLevel (getF input "level") <;> norm_num [pointsForLevel]
      · cases normalizeLevel (getF input "level") <;> simp [pointsForLevel, Rat.den_ofNat]
    · constructor
      · have h1 : (1 : ℤ) ≤ max 1 (jsRound n) := le_max_left 1 _
        have h2 : ((1 : ℤ) : ℚ) ≤ ((max 1 (jsRound n) : ℤ) : ℚ) := Int.cast_le.mpr h1
        calc (1 : ℚ) = ((1 : ℤ) : ℚ) := by norm_num
          _ ≤ _ := h2
      · exact Rat.den_intCast _
  · intro input i h
    rw [frontendQuestion_points, h]

/-- Claim C9 (counterexample): pressing Grade while the session is in
authoring (`editor`) mode with the mounted sample quiz loaded is
neither rejected nor a no-op — it transitions straight to graded
(`results`). -/
theorem C9_counterexample :
    authoringSession.mode = Mode.editor ∧
      (gradeAction authoringSession).mode = Mode.results ∧
      gradeAction authoringSession ≠ authoringSession := by
  have hm : (gradeAction authoringSession).mode = Mode.results := by
    with_unfolding_all decide
  refine ⟨rfl, hm, fun h => ?_⟩
  have := congrArg SessionF.mode h
  rw [hm] at this
  exact Mode.noConfusion this

/-- Claim C9 (amended): the grading transition is a no-op exactly when
no quiz is loaded; whenever a quiz is present — whatever the current
mode, including authoring — grading proceeds and moves the session
directly to graded (`results`) with the computed score. -/
theorem C9_amended :
    (∀ s : SessionF, s.quiz = none → gradeAction s = s) ∧
      (∀ (s : SessionF) (qz : QuizF), s.quiz = some qz →
        (gradeAction s).mode = Mode.results ∧
          (gradeAction s).score = some (gradeQuiz qz s.answers).score) := by
  constructor
  · intro s h
    unfold gradeAction
    rw [h]
  · intro s qz h
    unfold gradeAction
    rw [h]
    exact ⟨rfl, rfl⟩

theorem C9_amended_witness :
    authoringSession.quiz = some createSampleQuiz ∧
      (gradeAction authoringSession).mode = Mode.results := by
  exact ⟨rfl, (C9_amended.2 authoringSession createSampleQuiz rfl).1⟩

theorem C2_points_amended_witness :
    (1 ≤ (Backend.normalizeQuestion (some (.obj [("points", .num 100)])) 0).points ∧
      (Backend.normalizeQuestion (some (.obj [("points", .num 100)])) 0).points ≤ 10) ∧
      jsToNumberOpt (getF (some (JVal.obj [])) "points") = none ∧
      (normalizeQuestion (some (.obj [])) 0).points =
        pointsForLevel (normalizeLevel (getF (some (JVal.obj [])) "level")) := by
  refine ⟨C2_points_amended.1 (some (.obj [("points", .num 100)])) 0, rfl, ?_⟩
  exact C2_points_amended.2.2.2 (some (.obj [])) 0 rfl

/-- The raw model output of the C8 scenario: valid JSON whose
`questions` array is empty, so the normalizer produces an empty quiz. -/
def emptyQuestionsOut : String := "\x7b\"questions\": []\x7d"

/-- Claim C8 (counterexample): when the extractor succeeds but the
normalizer finds zero questions, the `normalizeQuiz` throw is caught by
the route's generic `catch`, so the request fails with
`UPSTREAM_AI_ERROR` (500) carrying the thrown message — not with
`INVALID_AI_OUTPUT` and not with an excerpt of the raw text. -/
theorem C8_counterexample :
    handlerCode (generateHandler emptyQuestionsOut 5) = some "UPSTREAM_AI_ERROR" ∧
      handlerCode (generateHandler emptyQuestionsOut 5) ≠ some "INVALID_AI_OUTPUT" ∧
      handlerStatus (generateHandler emptyQuestionsOut 5) = some 500 ∧
      handlerDetail (generateHandler emptyQuestionsOut 5) =
        some (some "AI response did not contain questions") ∧
      handlerOk (generateHandler emptyQuestionsOut 5) = false := by
  set_option maxRecDepth 100000 in with_unfolding_all decide

/-- Claim C8 (amended): on the generation route, a failed extraction is
rejected as 502 `INVALID_AI_OUTPUT` with the leading 500 characters of
the raw text, while an empty quiz from the normalizer is rejected as
500 `UPSTREAM_AI_ERROR` carrying the thrown message; in neither case is
a fallback quiz substituted (the response is an error, never a quiz). -/
theorem C8_empty_quiz_amended :
    (∀ (out : String) (count : ℕ), tryExtractJson out = none →
      generateHandler out count =
        .error ⟨502, "INVALID_AI_OUTPUT", "Model response was not valid JSON",
          some (String.mk (out.toList.take 500))⟩) ∧
    (∀ (out : String) (count : ℕ) (parsed : JVal) (msg : String),
      tryExtractJson out = some parsed →
      Backend.normalizeQuiz (some parsed) count = .error msg →
      generateHandler out count =
        .error ⟨500, "UPSTREAM_AI_ERROR", "Failed to generate quiz", some msg⟩) := by
  constructor
  · intro out count h
    unfold generateHandler
    rw [h]
  · intro out count parsed msg h1 h2
    unfold generateHandler
    rw [h1]
    dsimp only
    rw [h2]

theorem C8_empty_quiz_amended_witness :
    tryExtractJson "plain prose" = none ∧
      generateHandler "plain prose" 5 =
        .error ⟨502, "INVALID_AI_OUTPUT", "Model response was not valid JSON",
          some "plain prose"⟩ := by
  have hx : tryExtractJson "plain prose" = none := by with_unfolding_all rfl
  refine ⟨hx, ?_⟩
  have := C8_empty_quiz_amended.1 "plain prose" 5 hx
  rw [this]
  rfl

/-! ### Grading lemmas -/

theorem effPoints_of_ne_zero (qn : QuestionF) (h : qn.points ≠ 0) :
    effPoints qn = qn.points := by
  unfold effPoints
  exact if_pos h

theorem gradeOne_earnedDelta (qn : QuestionF) (a : Option AnswerF) :
    (gradeOne qn a).earnedDelta = (gradeOne qn a).ans.pointsAwarded := by
  obtain ⟨qid, qq, lvl, pts, pl⟩ := qn
  cases pl <;> dsimp only [gradeOne] <;> first | rfl | (split <;> rfl)

theorem gradeFold_spec (m : String → Option AnswerF) (l : List QuestionF) (acc : GradeAcc) :
    (gradeFold m acc l).answers = acc.answers ++ l.map (fun qn => (gradeOne qn (m qn.id)).ans) ∧
      (gradeFold m acc l).earned =
        acc.earned + (l.map (fun qn => (gradeOne qn (m qn.id)).earnedDelta)).sum ∧
      (gradeFold m acc l).total = acc.total + (l.map effPoints).sum := by
  induction l generalizing acc with
  | nil => simp [gradeFold]
  | cons qn rest ih =>
    obtain ⟨ha, he, ht⟩ := ih
      { answers := acc.answers ++ [(gradeOne qn (m qn.id)).ans]
        earned := acc.earned + (gradeOne qn (m qn.id)).earnedDelta
        total := acc.total + effPoints qn
        weak := addWeak acc.weak (gradeOne qn (m qn.id)).weakTag }
    simp only [gradeFold]
    refine ⟨?_, ?_, ?_⟩
    · rw [ha]
      simp [List.append_assoc]
    · rw [he]
      simp [add_assoc]
    · rw [ht]
      simp [add_assoc]

theorem addWeak_mem (l : List String) (o : Option String) (t : String) :
    t ∈ addWeak l o ↔ t ∈ l ∨ o = some t := by
  cases o with
  | none => simp [addWeak]
  | some s =>
    simp only [addWeak]
    by_cases hs : s ∈ l
    · rw [if_pos hs]
      constructor
      · intro ht; exact Or.inl ht
      · rintro (ht | hst)
        · exact ht
        · rw [Option.some_inj] at hst; rw [← hst]; exact hs
    · rw [if_neg hs]
      simp [List.mem_append, eq_comm]

theorem addWeak_nodup (l : List String) (o : Option String) (h : l.Nodup) :
    (addWeak l o).Nodup := by
  cases o with
  | none => exact h
  | some s =>
    simp only [addWeak]
    by_cases hs : s ∈ l
    · rw [if_pos hs]; exact h
    · rw [if_neg hs]
      simp only [List.nodup_append, List.nodup_singleton, true_and, and_true]
      refine ⟨h, ?_⟩
      intro x hx hxs
      rw [List.mem_singleton] at hxs
      exact hs (hxs ▸ hx)

theorem gradeFold_weak (m : String → Option AnswerF) (l : List QuestionF) (acc : GradeAcc) :
    (∀ t, t ∈ (gradeFold m acc l).weak ↔
        t ∈ acc.weak ∨ ∃ qn ∈ l, (gradeOne qn (m qn.id)).weakTag = some t) ∧
      (acc.weak.Nodup → (gradeFold m acc l).weak.Nodup) := by
  induction l generalizing acc with
  | nil => simp [gradeFold]
  | cons qn rest ih =>
    obtain ⟨hmem, hnd⟩ := ih
      { answers := acc.answers ++ [(gradeOne qn (m qn.id)).ans]
        earned := acc.earned + (gradeOne qn (m qn.id)).earnedDelta
        total := acc.total + effPoints qn
        weak := addWeak acc.weak (gradeOne qn (m qn.id)).weakTag }
    simp only [gradeFold]
    constructor
    · intro t
      rw [hmem t]
      rw [addWeak_mem]
      simp only [List.mem_cons]
      constructor
      · rintro ((ht | hq) | ⟨qn', hqn', hw⟩)
        · exact Or.inl ht
        · exact Or.inr ⟨qn, Or.inl rfl, hq⟩
        · exact Or.inr ⟨qn', Or.inr hqn', hw⟩
      · rintro (ht | ⟨qn', (rfl | hqn'), hw⟩)
        · exact Or.inl (Or.inl ht)
        · exact Or.inl (Or.inr hw)
        · exact Or.inr ⟨qn', hqn', hw⟩
    · intro hn
      exact hnd (addWeak_nodup _ _ hn)

/-- Claim C1: for every quiz (with the data model's `points ≥ 1`
invariant) and every answers map, the aggregate score is
`round(100 * earned / total)` where `earned` is the sum of the
per-question `pointsAwarded` and `total` the sum of question points,
and `0` when `total == 0`; in particular the one-MCQ quiz
(`correctIndex = 1`, `points = 1`) scores 100 on submitting index 1 and
0 on submitting index 0 or nothing. -/
theorem C1_score_formula (qz : QuizF) (m : String → Option AnswerF)
    (h : ∀ qn ∈ qz.questions, 1 ≤ qn.points) :
    (gradeQuiz qz m).total = (qz.questions.map (fun qn => qn.points)).sum ∧
      (gradeQuiz qz m).earned = ((gradeQuiz qz m).answers.map (fun a => a.pointsAwarded)).sum ∧
      (gradeQuiz qz m).score =
        (if (gradeQuiz qz m).total = 0 then 0
          else jsRound (100 * (gradeQuiz qz m).earned / (gradeQuiz qz m).total)) ∧
      (gradeQuiz mcqDemoQuiz (submitIdx 1)).score = 100 ∧
      (gradeQuiz mcqDemoQuiz (submitIdx 0)).score = 0 ∧
      (gradeQuiz mcqDemoQuiz noAnswers).score = 0 := by
  obtain ⟨ha, he, ht⟩ := gradeFold_spec m qz.questions ⟨[], 0, 0, []⟩
  have htotal : (gradeQuiz qz m).total = (qz.questions.map (fun qn => qn.points)).sum := by
    show (gradeFold m ⟨[], 0, 0, []⟩ qz.questions).total = _
    rw [ht]
    rw [zero_add]
    congr 1
    apply List.map_congr_left
    intro qn hqn
    exact effPoints_of_ne_zero qn (by have := h qn hqn; intro h0; rw [h0] at this; norm_num at this)
  have hearned : (gradeQuiz qz m).earned =
      ((gradeQuiz qz m).answers.map (fun a => a.pointsAwarded)).sum := by
    show (gradeFold m ⟨[], 0, 0, []⟩ qz.questions).earned =
      ((gradeFold m ⟨[], 0, 0, []⟩ qz.questions).answers.map (fun a => a.pointsAwarded)).sum
    rw [he, ha]
    rw [zero_add]
    simp only [List.nil_append, List.map_map]
    congr 1
    apply List.map_congr_left
    intro qn hqn
    exact gradeOne_earnedDelta qn (m qn.id)
  have hnonneg : 0 ≤ (gradeQuiz qz m).total := by
    rw [htotal]
    apply List.sum_nonneg
    intro x hx
    obtain ⟨qn, hqn, rfl⟩ := List.mem_map.mp hx
    exact le_trans (by norm_num) (h qn hqn)
  refine ⟨htotal, hearned, ?_, ?_, ?_, ?_⟩
  · show (if (gradeFold m ⟨[], 0, 0, []⟩ qz.questions).total > 0
        then jsRound ((gradeFold m ⟨[], 0, 0, []⟩ qz.questions).earned /
          (gradeFold m ⟨[], 0, 0, []⟩ qz.questions).total * 100)
        else 0) = _
    by_cases h0 : (gradeQuiz qz m).total = 0
    · rw [if_pos h0]
      have : ¬((gradeFold m ⟨[], 0, 0, []⟩ qz.questions).total > 0) := by
        rw [show (gradeFold m ⟨[], 0, 0, []⟩ qz.questions).total = (gradeQuiz qz m).total from rfl,
          h0]
        norm_num
      rw [if_neg this]
    · rw [if_neg h0]
      have hpos : (gradeFold m ⟨[], 0, 0, []⟩ qz.questions).total > 0 := by
        rcases lt_or_eq_of_le hnonneg with hlt | heq
        · exact hlt
        · exact absurd heq.symm h0
      rw [if_pos hpos]
      congr 1
      show (gradeQuiz qz m).earned / (gradeQuiz qz m).total * 100 =
        100 * (gradeQuiz qz m).earned / (gradeQuiz qz m).total
      ring
  · with_unfolding_all decide
  · with_unfolding_all decide
  · with_unfolding_all decide

theorem C1_score_formula_witness :
    (∀ qn ∈ mcqDemoQuiz.questions, 1 ≤ qn.points) ∧
      (gradeQuiz mcqDemoQuiz (submitIdx 1)).total =
        (mcqDemoQuiz.questions.map (fun qn => qn.points)).sum ∧
      (gradeQuiz mcqDemoQuiz (submitIdx 1)).score = 100 := by
  have h : ∀ qn ∈ mcqDemoQuiz.questions, 1 ≤ qn.points := by with_unfolding_all decide
  obtain ⟨ht, _, _, hs, _⟩ := C1_score_formula mcqDemoQuiz (submitIdx 1) h
  exact ⟨h, ht, hs⟩

/-- The spec's text-scoring example: a 2-point text question with
keywords `["add","sum"]`. -/
def textDemoQuestion : QuestionF :=
  { id := "q2", q := "Explain sum", level := .medium, points := 2
    payload := .text ["add", "sum"] }

/-- The stored answer `"adds two numbers"` for the text example. -/
def textDemoAnswer : Option AnswerF :=
  some { id := "q2", type := .text, value := .str "adds two numbers", correct := none
         pointsAwarded := 0 }

/-- Claim C3: a text question with an empty keyword list is ungradable
(`correct = null`, zero points, weak-area tagged — and the tag reaches
the attempt's weak areas), as is a code question with no expected key
points; with keywords present, `pointsAwarded = round(min(1,
matched/keywordCount) * points)` where a keyword matches iff its
lower-cased form is a substring of the lower-cased answer, and
`correct` is exactly "full points".  The spec's example
(`["add","sum"]` against `"adds two numbers"`, 2 points) matches 1 of 2
and awards `round(0.5 * 2) = 1`. -/
theorem C3_keyword_scoring :
    (∀ (qn : QuestionF) (a : Option AnswerF), qn.payload = .text [] →
      gradeOne qn a =
        ⟨⟨qn.id, .text, valueOrEmpty a, none, 0⟩, 0, some ("text-" ++ levelToStr qn.level)⟩) ∧
    (∀ (qn : QuestionF) (a : Option AnswerF) (sc : String), qn.payload = .code sc [] →
      gradeOne qn a =
        ⟨⟨qn.id, .code, valueOrEmpty a, none, 0⟩, 0, some ("code-" ++ levelToStr qn.level)⟩) ∧
    (∀ (qz : QuizF) (m : String → Option AnswerF) (qn : QuestionF),
      qn ∈ qz.questions → qn.payload = .text [] →
      ("text-" ++ levelToStr qn.level) ∈ (gradeQuiz qz m).weak) ∧
    (∀ (qn : QuestionF) (a : Option AnswerF) (kws : List String),
      qn.payload = .text kws → kws ≠ [] →
      (gradeOne qn a).ans.pointsAwarded =
        ((jsRound (min 1
          (((kws.filter (fun kw => includesStr (lowerStr (answerTextOf a)) (lowerStr kw))).length
            : ℚ) / (kws.length : ℚ)) * effPoints qn) : ℤ) : ℚ) ∧
      (gradeOne qn a).ans.correct =
        some (decide ((gradeOne qn a).ans.pointsAwarded = effPoints qn))) ∧
    (∀ (qn : QuestionF) (a : Option AnswerF) (sc : String) (ekp : List String),
      qn.payload = .code sc ekp → ekp ≠ [] →
      (gradeOne qn a).ans.pointsAwarded =
        ((jsRound (min 1
          ((((ekp.map lowerStr).filter
              (fun kp => includesStr (lowerStr (answerTextOf a)) kp)).length
            : ℚ) / (ekp.length : ℚ)) * effPoints qn) : ℤ) : ℚ) ∧
      (gradeOne qn a).ans.correct =
        some (decide ((gradeOne qn a).ans.pointsAwarded = effPoints qn))) ∧
    ((["add", "sum"].filter
        (fun kw => includesStr (lowerStr (answerTextOf textDemoAnswer)) (lowerStr kw))).length
      = 1 ∧
      (gradeOne textDemoQuestion textDemoAnswer).ans.pointsAwarded = 1 ∧
      ((jsRound ((1 / 2 : ℚ) * 2) : ℤ) : ℚ) = 1) := by
  have hungradable : ∀ (qn : QuestionF) (a : Option AnswerF), qn.payload = .text [] →
      gradeOne qn a =
        ⟨⟨qn.id, .text, valueOrEmpty a, none, 0⟩, 0, some ("text-" ++ levelToStr qn.level)⟩ := by
    intro qn a h
    obtain ⟨qid, qq, lvl, pts, pl⟩ := qn
    dsimp only at h
    subst h
    rfl
  refine ⟨hungradable, ?_, ?_, ?_, ?_, ?_⟩
  · intro qn a sc h
    obtain ⟨qid, qq, lvl, pts, pl⟩ := qn
    dsimp only at h
    subst h
    rfl
  · intro qz m qn hqn h
    show _ ∈ (gradeFold m ⟨[], 0, 0, []⟩ qz.questions).weak
    rw [(gradeFold_weak m qz.questions ⟨[], 0, 0, []⟩).1 _]
    refine Or.inr ⟨qn, hqn, ?_⟩
    rw [hungradable qn (m qn.id) h]
  · intro qn a kws h hne
    obtain ⟨qid, qq, lvl, pts, pl⟩ := qn
    dsimp only at h
    subst h
    have hlen : 0 < kws.length := List.length_pos.mpr hne
    have hmax : max 1 kws.length = kws.length := by omega
    have hempty : kws.isEmpty = false := by
      cases kws with
      | nil => exact absurd rfl hne
      | cons x xs => rfl
    constructor
    · dsimp only [gradeOne]
      rw [hempty]
      simp only [Bool.false_eq_true, if_false]
      rw [hmax]
    · dsimp only [gradeOne]
      rw [hempty]
      simp only [Bool.false_eq_true, if_false]
  · intro qn a sc ekp h hne
    obtain ⟨qid, qq, lvl, pts, pl⟩ := qn
    dsimp only at h
    subst h
    have hlen : 0 < ekp.length := List.length_pos.mpr hne
    have hmax : max 1 (ekp.map lowerStr).length = ekp.length := by
      rw [List.length_map]; omega
    have hempty : (ekp.map lowerStr).isEmpty = false := by
      cases ekp with
      | nil => exact absurd rfl hne
      | cons x xs => rfl
    constructor
    · dsimp only [gradeOne]
      rw [hempty]
      simp only [Bool.false_eq_true, if_false]
      rw [hmax]
    · dsimp only [gradeOne]
      rw [hempty]
      simp only [Bool.false_eq_true, if_false]
  · refine ⟨by decide, ?_, by with_unfolding_all decide⟩
    with_unfolding_all decide

/-! ### Rounding lemmas -/

theorem jsRound_intCast (k : ℤ) : jsRound (k : ℚ) = k := by
  unfold jsRound
  rw [add_comm, Int.floor_add_int]
  norm_num

theorem jsRound_mono {a b : ℚ} (h : a ≤ b) : jsRound a ≤ jsRound b :=
  Int.floor_le_floor (by linarith)

theorem jsRound_le_int (x : ℚ) (k : ℤ) (h : x ≤ (k : ℚ)) : jsRound x ≤ k := by
  have := jsRound_mono h
  rwa [jsRound_intCast] at this

/-- The weak-area tag of a question. -/
def tagOf (qn : QuestionF) : String :=
  typeToStr qn.qtype ++ "-" ++ levelToStr qn.level

/-- For questions with integral points `≥ 1` (the shape every
normalized question has), the grading pass tags a question into weak
areas exactly when its graded answer is not fully correct
(`correct ≠ true`, which includes the ungradable `null`). -/
theorem weakTag_char (qn : QuestionF) (a : Option AnswerF)
    (hden : qn.points.den = 1) (hge : 1 ≤ qn.points) :
    (gradeOne qn a).weakTag =
      (if (gradeOne qn a).ans.correct = some true then none else some (tagOf qn)) := by
  have hne : qn.points ≠ 0 := by intro h0; rw [h0] at hge; norm_num at hge
  have hep : effPoints qn = qn.points := effPoints_of_ne_zero qn hne
  have hint : ((qn.points.num : ℤ) : ℚ) = qn.points := (Rat.den_eq_one_iff qn.points).mp hden
  have hknum : 1 ≤ qn.points.num := by
    have h1 : (1 : ℚ) ≤ ((qn.points.num : ℤ) : ℚ) := by rw [hint]; exact hge
    exact_mod_cast h1
  have hle : ∀ fr : ℚ, fr ≤ 1 →
      ((jsRound (fr * effPoints qn) : ℤ) : ℚ) ≤ effPoints qn := by
    intro fr hfr
    rw [hep]
    have h0 : (0 : ℚ) ≤ qn.points := le_trans (by norm_num) hge
    have hmul : fr * qn.points ≤ qn.points := mul_le_of_le_one_left h0 hfr
    have : jsRound (fr * qn.points) ≤ qn.points.num := by
      apply jsRound_le_int
      rw [hint]
      exact hmul
    calc ((jsRound (fr * qn.points) : ℤ) : ℚ) ≤ ((qn.points.num : ℤ) : ℚ) := by
          exact_mod_cast this
      _ = qn.points := hint
  obtain ⟨qid, qq, lvl, pts, pl⟩ := qn
  cases pl with
  | mcq opts ci =>
    dsimp only [gradeOne, tagOf, QuestionF.qtype, typeToStr]
    split <;> rename_i h <;> simp [h]
  | text kws =>
    dsimp only [gradeOne, tagOf, QuestionF.qtype, typeToStr] at hle ⊢
    split
    · simp
    · rename_i hkw
      set fr : ℚ := min 1
        (((kws.filter (fun kw =>
          includesStr (lowerStr (answerTextOf a)) (lowerStr kw))).length : ℚ) /
          ((max 1 kws.length : ℕ) : ℚ)) with hfr
      have hfr1 : fr ≤ 1 := min_le_left _ _
      have hawle := hle fr hfr1
      by_cases he : ((jsRound (fr * effPoints ⟨qid, qq, lvl, pts, .text kws⟩) : ℤ) : ℚ) =
          effPoints ⟨qid, qq, lvl, pts, .text kws⟩
      · simp [he]
      · simp [he, lt_of_le_of_ne hawle he]
  | code sc ekp =>
    dsimp only [gradeOne, tagOf, QuestionF.qtype, typeToStr] at hle ⊢
    split
    · simp
    · rename_i hkw
      set fr : ℚ := min 1
        ((((ekp.map lowerStr).filter (fun kp =>
          includesStr (lowerStr (answerTextOf a)) kp)).length : ℚ) /
          ((max 1 (ekp.map lowerStr).length : ℕ) : ℚ)) with hfr
      have hfr1 : fr ≤ 1 := min_le_left _ _
      have hawle := hle fr hfr1
      by_cases he : ((jsRound (fr * effPoints ⟨qid, qq, lvl, pts, .code sc ekp⟩) : ℤ) : ℚ) =
          effPoints ⟨qid, qq, lvl, pts, .code sc ekp⟩
      · simp [he]
      · simp [he, lt_of_le_of_ne hawle he]

/-- Two medium MCQ questions (both will be graded not-fully-correct when
unanswered). -/
def twoMcqQuiz : QuizF :=
  { title := "Two"
    description := ""
    questions := [
      { id := "q1", q := "A?", level := .medium, points := 2
        payload := .mcq ["a", "b", "c", "d"] 1 },
      { id := "q2", q := "B?", level := .medium, points := 2
        payload := .mcq ["a", "b", "c", "d"] 2 }] }

/-- Claim C7 (counterexample): `weakAreas` is a JavaScript `Set`, so it
is deduplicated — grading two not-fully-correct `mcq`/`medium`
questions leaves exactly one `"mcq-medium"` entry, not two. -/
theorem C7_counterexample :
    ((gradeQuiz twoMcqQuiz noAnswers).answers.map (fun a => a.correct)) =
        [some false, some false] ∧
      (gradeQuiz twoMcqQuiz noAnswers).weak = ["mcq-medium"] ∧
      (gradeQuiz twoMcqQuiz noAnswers).weak.length = 1 := by
  with_unfolding_all decide

/-- Claim C7 (amended): in a graded attempt over normalized questions
(integral points `≥ 1`), a question contributes the tag
`"<type>-<level>"` exactly when it is not fully correct or ungradable,
but the collection is a deduplicated set (insertion-ordered, each tag
at most once per attempt), not a multiset. -/
theorem C7_weak_areas_amended (qz : QuizF) (m : String → Option AnswerF)
    (h : ∀ qn ∈ qz.questions, qn.points.den = 1 ∧ 1 ≤ qn.points) :
    (gradeQuiz qz m).weak.Nodup ∧
      ∀ t, t ∈ (gradeQuiz qz m).weak ↔
        ∃ qn ∈ qz.questions, (gradeOne qn (m qn.id)).ans.correct ≠ some true ∧ t = tagOf qn := by
  obtain ⟨hmem, hnd⟩ := gradeFold_weak m qz.questions ⟨[], 0, 0, []⟩
  constructor
  · exact hnd List.nodup_nil
  · intro t
    show t ∈ (gradeFold m ⟨[], 0, 0, []⟩ qz.questions).weak ↔ _
    rw [hmem t]
    simp only [List.not_mem_nil, false_or]
    constructor
    · rintro ⟨qn, hqn, hw⟩
      obtain ⟨hd, hg⟩ := h qn hqn
      rw [weakTag_char qn (m qn.id) hd hg] at hw
      by_cases hc : (gradeOne qn (m qn.id)).ans.correct = some true
      · rw [if_pos hc] at hw
        cases hw
      · rw [if_neg hc] at hw
        exact ⟨qn, hqn, hc, (Option.some_inj.mp hw).symm⟩
    · rintro ⟨qn, hqn, hc, rfl⟩
      obtain ⟨hd, hg⟩ := h qn hqn
      refine ⟨qn, hqn, ?_⟩
      rw [weakTag_char qn (m qn.id) hd hg, if_neg hc]

theorem C7_weak_areas_amended_witness :
    (∀ qn ∈ twoMcqQuiz.questions, qn.points.den = 1 ∧ 1 ≤ qn.points) ∧
      (gradeQuiz twoMcqQuiz noAnswers).weak.Nodup := by
  have h : ∀ qn ∈ twoMcqQuiz.questions, qn.points.den = 1 ∧ 1 ≤ qn.points := by
    with_unfolding_all decide
  exact ⟨h, (C7_weak_areas_amended twoMcqQuiz noAnswers h).1⟩

/-- A text question with an empty keyword list (ungradable). -/
def emptyKwQuestion : QuestionF :=
  { id := "q9", q := "Free response", level := .hard, points := 3, payload := .text [] }

theorem C3_keyword_scoring_witness :
    gradeOne emptyKwQuestion none =
        ⟨⟨"q9", .text, .str "", none, 0⟩, 0, some ("text-" ++ levelToStr Level.hard)⟩ ∧
      (gradeOne textDemoQuestion textDemoAnswer).ans.correct =
        some (decide ((gradeOne textDemoQuestion textDemoAnswer).ans.pointsAwarded =
          effPoints textDemoQuestion)) := by
  refine ⟨C3_keyword_scoring.1 emptyKwQuestion none rfl, ?_⟩
  exact (C3_keyword_scoring.2.2.2.1 textDemoQuestion textDemoAnswer ["add", "sum"] rfl
    (by decide)).2

/-! ### Extractor lemmas -/

theorem findSub_none_of_head_not_mem (p : Char) (ps cs : List Char) (h : p ∉ cs) :
    findSub (p :: ps) cs = none := by
  induction cs with
  | nil => rfl
  | cons c rest ih =>
    have hpc : p ≠ c := fun he => h (he ▸ List.mem_cons_self c rest)
    have hpr : p ∉ rest := fun hm => h (List.mem_cons_of_mem c hm)
    unfold findSub
    rw [if_neg, ih hpr]
    · rfl
    · intro hpre
      have : (p == c) = true := by
        have := List.isPrefixOf_iff_prefix.mp hpre
        obtain ⟨t, ht⟩ := this
        injection ht with h1 _
        simp [h1]
      exact hpc (by simpa using this)

theorem braceSlice_none_of_no_brace (text : String)
    (h : ∀ c ∈ text.toList, c ≠ braceOpen) : braceSlice text = none := by
  unfold braceSlice
  dsimp only
  rw [findSub_none_of_head_not_mem braceOpen [] text.toList (fun hm => h _ hm rfl)]

theorem findFenced_none_of_no_backtick (text : String)
    (h : ∀ c ∈ text.toList, c ≠ backtick) : findFenced text = none := by
  unfold findFenced
  dsimp only
  rw [show fenceChars = backtick :: [backtick, backtick] from rfl]
  rw [findSub_none_of_head_not_mem backtick [backtick, backtick] text.toList
    (fun hm => h _ hm rfl)]

theorem tier1_some (text : String) (v : JVal) (h : parseJsonStrict text = some v) :
    tryExtractJson text = some v := by
  unfold tryExtractJson
  by_cases ht : text = ""
  · subst ht
    rw [show parseJsonStrict "" = none from by with_unfolding_all rfl] at h
    cases h
  · rw [if_neg ht, h]

theorem tier2_some (text : String) (v : JVal) (h1 : parseJsonStrict text = none)
    (h2 : tier2Result text = some v) : tryExtractJson text = some v := by
  unfold tryExtractJson
  by_cases ht : text = ""
  · subst ht
    rw [show tier2Result "" = none from by with_unfolding_all rfl] at h2
    cases h2
  · rw [if_neg ht, h1]
    dsimp only
    rw [h2]

theorem tier3_eq (text s : String) (h1 : parseJsonStrict text = none)
    (h2 : tier2Result text = none) (h3 : braceSlice text = some s) :
    tryExtractJson text = parseJsonStrict s := by
  unfold tryExtractJson
  by_cases ht : text = ""
  · subst ht
    rw [show braceSlice "" = none from by with_unfolding_all rfl] at h3
    cases h3
  · rw [if_neg ht, h1]
    dsimp only
    rw [h2]
    dsimp only
    rw [h3]

theorem allTiers_none (text : String) (h1 : parseJsonStrict text = none)
    (h2 : tier2Result text = none) (h3 : braceSlice text = none) :
    tryExtractJson text = none := by
  unfold tryExtractJson
  by_cases ht : text = ""
  · rw [if_pos ht]
  · rw [if_neg ht, h1]
    dsimp only
    rw [h2]
    dsimp only
    rw [h3]

/-- Claim C4 (counterexample): the claim says text with no braces and
no fenced block always yields the "no JSON found" failure, but a bare
JSON scalar such as `"123"` contains neither and still succeeds via
strategy 1. -/
theorem C4_counterexample :
    tryExtractJson "123" = some (JVal.num 123) ∧
      (∀ c ∈ ("123" : String).toList, c ≠ braceOpen ∧ c ≠ braceClose ∧ c ≠ backtick) := by
  constructor
  · with_unfolding_all rfl
  · with_unfolding_all decide

/-- Claim C4 (amended): the extractor tries the three strategies in
order with the first success winning — whole-text strict parse, then
the nonempty fenced-block capture, then the first-`{`-to-last-`}`
slice — and reports the distinct "no JSON found" failure (`null`) when
all three fail; text with no braces and no fenced block fails
strategies 2 and 3, so it yields that failure unless the entire text
itself parses as strict JSON (e.g. a bare number or array). -/
theorem C4_extractor_amended :
    (∀ (text : String) (v : JVal), parseJsonStrict text = some v →
      tryExtractJson text = some v) ∧
    (∀ (text : String) (v : JVal), parseJsonStrict text = none → tier2Result text = some v →
      tryExtractJson text = some v) ∧
    (∀ (text s : String), parseJsonStrict text = none → tier2Result text = none →
      braceSlice text = some s → tryExtractJson text = parseJsonStrict s) ∧
    (∀ text : String, parseJsonStrict text = none → tier2Result text = none →
      braceSlice text = none → tryExtractJson text = none) ∧
    (∀ text : String, (∀ c ∈ text.toList, c ≠ braceOpen ∧ c ≠ braceClose ∧ c ≠ backtick) →
      parseJsonStrict text = none → tryExtractJson text = none) := by
  refine ⟨tier1_some, tier2_some, tier3_eq, allTiers_none, ?_⟩
  intro text hchars h1
  have hff : findFenced text = none :=
    findFenced_none_of_no_backtick text (fun c hc => (hchars c hc).2.2)
  have ht2 : tier2Result text = none := by
    unfold tier2Result
    rw [hff]
  have hbs : braceSlice text = none :=
    braceSlice_none_of_no_brace text (fun c hc => (hchars c hc).1)
  exact allTiers_none text h1 ht2 hbs

theorem C4_extractor_amended_witness :
    parseJsonStrict "no json here" = none ∧ tryExtractJson "no json here" = none := by
  have h1 : parseJsonStrict "no json here" = none := by with_unfolding_all rfl
  refine ⟨h1, ?_⟩
  exact C4_extractor_amended.2.2.2.2 "no json here" (by with_unfolding_all decide) h1

/-! ### Idempotence of normalization (claim C5)

A second normalization differs from the first only where a truthy
field stringifies to the empty string (a JavaScript quirk of e.g. the
empty array: `[] || d` keeps `[]` which `String(...)` renders as `""`,
so the first pass stores `""` and the second pass replaces it by the
default).  `stableStr` rules that out for the fields whose coerced
string feeds a truthiness-guarded default: the quiz `title` and
`description` and each raw question's `id` and `q`. -/

/-- A possibly-absent field whose string coercion does not collapse a
truthy value to the empty string. -/
def stableStr : Option JVal → Bool
  | none => true
  | some w => !jsTruthy w || jsToString w != ""

/-- Stability of all the truthiness-guarded string fields of a raw quiz
input. -/
def stableQuizInput (x : Option JVal) : Bool :=
  stableStr (getF x "title") && stableStr (getF x "description") &&
    (rawQuestionsOf x).all (fun v => stableStr (getField v "id") && stableStr (getField v "q"))

/-- The invariants a normalized frontend question always satisfies (and
exactly what the round-trip proof needs). -/
def goodQuestion (qn : QuestionF) : Prop :=
  qn.id ≠ "" ∧ qn.q ≠ "" ∧ (∃ k : ℤ, 1 ≤ k ∧ qn.points = (k : ℚ)) ∧
    (match qn.payload with
      | .mcq opts ci => opts.length = 4 ∧ (∀ o ∈ opts, o ≠ "") ∧ 0 ≤ ci ∧ ci ≤ 3
      | .text kws => ∀ kw ∈ kws, kw ≠ ""
      | .code _ ekp => ∀ e ∈ ekp, e ≠ "")

theorem append_ne_empty (a s : String) (h : a ≠ "") : a ++ s ≠ "" := by
  intro he
  have hl := congrArg String.length he
  rw [String.length_append] at hl
  have ha : 0 < a.length := by
    cases a with
    | mk l =>
      cases l with
      | nil => exact absurd rfl h
      | cons c cs => simp [String.length]
  simp only [String.length_empty] at hl
  omega

theorem jsStrOr_ne_empty (v : Option JVal) (dflt : String)
    (hs : stableStr v = true) (hd : dflt ≠ "") : jsStrOr v dflt ≠ "" := by
  cases v with
  | none => exact hd
  | some w =>
    simp only [jsStrOr]
    by_cases ht : jsTruthy w = true
    · rw [if_pos ht]
      simp only [stableStr, ht, Bool.not_true, Bool.false_or, bne_iff_ne] at hs
      exact hs
    · rw [if_neg ht]
      exact hd

theorem jsStrOr_str (s dflt : String) (h : s ≠ "") : jsStrOr (some (.str s)) dflt = s := by
  simp only [jsStrOr]
  rw [if_pos]
  · rfl
  · show (decide ¬(s = "")) = true
    simp [h]

theorem jsStrOr_str_empty_default (s : String) : jsStrOr (some (.str s)) "" = s := by
  by_cases h : s = ""
  · subst h
    rfl
  · exact jsStrOr_str s "" h

theorem coerceStrArr_ne (v : Option JVal) : ∀ s ∈ coerceStrArr v, s ≠ "" := by
  unfold coerceStrArr
  split
  · intro s hs
    have := (List.mem_filter.mp hs).2
    simpa using this
  · intro s hs
    cases hs

theorem coerceStrArr_map_str (ss : List String) (h : ∀ s ∈ ss, s ≠ "") :
    coerceStrArr (some (.arr (ss.map .str))) = ss := by
  induction ss with
  | nil => rfl
  | cons s rest ih =>
    have hs : s ≠ "" := h s (List.mem_cons_self s rest)
    have hrest := ih (fun t ht => h t (List.mem_cons_of_mem s ht))
    unfold coerceStrArr at hrest ⊢
    simp only [List.map_cons]
    rw [List.filter_cons]
    have h1 : (if jsTruthy (.str s) = true then jsToString (.str s) else "") = s := by
      rw [if_pos]
      · rfl
      · show (decide ¬(s = "")) = true
        simp [hs]
    rw [h1]
    have h2 : (decide ¬(s = "")) = true := by simp [hs]
    simp only [h2, if_true]
    rw [List.cons_inj_right]
    exact hrest

theorem padFrom_length (k n : ℕ) : (padFrom k n).length = n := by
  induction n generalizing k with
  | zero => rfl
  | succ m ih => simp [padFrom, ih]

theorem padFrom_ne (k n : ℕ) : ∀ o ∈ padFrom k n, o ≠ "" := by
  induction n generalizing k with
  | zero => intro o ho; cases ho
  | succ m ih =>
    intro o ho
    rcases List.mem_cons.mp ho with rfl | hm
    · exact append_ne_empty "Option " _ (by decide)
    · exact ih (k + 1) o hm

theorem padOptions_length (l : List String) (h : l.length ≤ 4) :
    (padOptions l).length = 4 := by
  unfold padOptions
  rw [List.length_append, padFrom_length]
  omega

theorem padOptions_ne (l : List String) (h : ∀ o ∈ l, o ≠ "") :
    ∀ o ∈ padOptions l, o ≠ "" := by
  intro o ho
  rcases List.mem_append.mp ho with hm | hm
  · exact h o hm
  · exact padFrom_ne _ _ o hm

theorem padOptions_of_length_four (l : List String) (h : l.length = 4) :
    padOptions l = l := by
  unfold padOptions
  rw [h]
  simp [padFrom]

theorem normalizeLevel_levelToStr (lvl : Level) :
    normalizeLevel (some (.str (levelToStr lvl))) = lvl := by
  cases lvl <;> rfl

theorem goodQuestion_default : goodQuestion defaultQuestion := by
  refine ⟨by decide, by decide, ⟨1, le_refl 1, by norm_num [defaultQuestion]⟩, ?_⟩
  show (4 : ℕ) = 4 ∧ _ ∧ (0 : ℚ) ≤ 1 ∧ (1 : ℚ) ≤ 3
  refine ⟨rfl, ?_, by norm_num, by norm_num⟩
  decide

theorem normalizeQuestion_good (input : Option JVal) (i : ℕ)
    (hid : stableStr (getF input "id") = true) (hq : stableStr (getF input "q") = true) :
    goodQuestion (normalizeQuestion input i) := by
  have hid' : jsStrOr (getF input "id") ("q" ++ toString (i + 1)) ≠ "" :=
    jsStrOr_ne_empty _ _ hid (append_ne_empty "q" _ (by decide))
  have hq' : jsStrOr (getF input "q") ("Question " ++ toString (i + 1)) ≠ "" :=
    jsStrOr_ne_empty _ _ hq (append_ne_empty "Question " _ (by decide))
  have hpts : ∃ k : ℤ, 1 ≤ k ∧
      (match jsToNumberOpt (getF input "points") with
        | some n => ((max 1 (jsRound n) : ℤ) : ℚ)
        | none => pointsForLevel (normalizeLevel (getF input "level"))) = (k : ℚ) := by
    rcases hv : jsToNumberOpt (getF input "points") with _ | n
    · cases hl : normalizeLevel (getF input "level")
      · exact ⟨1, le_refl 1, by norm_num [pointsForLevel]⟩
      · exact ⟨2, by norm_num, by norm_num [pointsForLevel]⟩
      · exact ⟨3, by norm_num, by norm_num [pointsForLevel]⟩
    · exact ⟨max 1 (jsRound n), le_max_left _ _, rfl⟩
  rcases htype : normalizeType (getF input "type") with _ | _ | _ <;>
    simp only [normalizeQuestion, htype] <;>
    refine ⟨hid', hq', hpts, ?_⟩
  · refine ⟨padOptions_length _ ?_, padOptions_ne _ ?_, le_max_left 0 _,
      max_le (by norm_num) (min_le_left _ _)⟩
    · exact List.length_take_le 4 _
    · intro o ho
      exact coerceStrArr_ne _ o (List.mem_of_mem_take ho)
  · exact coerceStrArr_ne _
  · exact coerceStrArr_ne _

theorem normalizeQuestion_roundtrip (qn : QuestionF) (h : goodQuestion qn) (i : ℕ) :
    normalizeQuestion (some (questionToJVal qn)) i = qn := by
  obtain ⟨qid, qq, lvl, pts, pl⟩ := qn
  obtain ⟨hid, hq, ⟨k, hk1, hkeq⟩, hpl⟩ := h
  have hpts_rt : ((max 1 (jsRound pts) : ℤ) : ℚ) = pts := by
    rw [show pts = ((k : ℤ) : ℚ) from hkeq, jsRound_intCast, max_eq_right hk1]
  cases pl with
  | mcq opts ci =>
    obtain ⟨hlen, hne, hci0, hci3⟩ := hpl
    have htype : normalizeType
        (getF (some (questionToJVal ⟨qid, qq, lvl, pts, .mcq opts ci⟩)) "type") = QType.mcq := rfl
    simp only [normalizeQuestion, htype]
    rw [show getF (some (questionToJVal ⟨qid, qq, lvl, pts, .mcq opts ci⟩)) "id" =
        some (JVal.str qid) from rfl]
    rw [show getF (some (questionToJVal ⟨qid, qq, lvl, pts, .mcq opts ci⟩)) "q" =
        some (JVal.str qq) from rfl]
    rw [show getF (some (questionToJVal ⟨qid, qq, lvl, pts, .mcq opts ci⟩)) "level" =
        some (JVal.str (levelToStr lvl)) from rfl]
    rw [show getF (some (questionToJVal ⟨qid, qq, lvl, pts, .mcq opts ci⟩)) "points" =
        some (JVal.num pts) from rfl]
    rw [show getF (some (questionToJVal ⟨qid, qq, lvl, pts, .mcq opts ci⟩)) "options" =
        some (JVal.arr (opts.map JVal.str)) from rfl]
    rw [show getF (some (questionToJVal ⟨qid, qq, lvl, pts, .mcq opts ci⟩)) "correctIndex" =
        some (JVal.num ci) from rfl]
    rw [jsStrOr_str qid _ hid, jsStrOr_str qq _ hq, normalizeLevel_levelToStr]
    rw [show jsToNumberOpt (some (JVal.num pts)) = some pts from rfl]
    rw [show jsToNumberOpt (some (JVal.num ci)) = some ci from rfl]
    simp only [Option.getD_some]
    rw [hpts_rt]
    rw [coerceStrArr_map_str opts hne]
    rw [show opts.take 4 = opts from by rw [← hlen]; exact List.take_length opts]
    rw [padOptions_of_length_four opts hlen]
    rw [min_eq_right hci3, max_eq_right hci0]
  | text kws =>
    have htype : normalizeType
        (getF (some (questionToJVal ⟨qid, qq, lvl, pts, .text kws⟩)) "type") = QType.text := rfl
    simp only [normalizeQuestion, htype]
    rw [show getF (some (questionToJVal ⟨qid, qq, lvl, pts, .text kws⟩)) "id" =
        some (JVal.str qid) from rfl]
    rw [show getF (some (questionToJVal ⟨qid, qq, lvl, pts, .text kws⟩)) "q" =
        some (JVal.str qq) from rfl]
    rw [show getF (some (questionToJVal ⟨qid, qq, lvl, pts, .text kws⟩)) "level" =
        some (JVal.str (levelToStr lvl)) from rfl]
    rw [show getF (some (questionToJVal ⟨qid, qq, lvl, pts, .text kws⟩)) "points" =
        some (JVal.num pts) from rfl]
    rw [show getF (some (questionToJVal ⟨qid, qq, lvl, pts, .text kws⟩)) "keywords" =
        some (JVal.arr (kws.map JVal.str)) from rfl]
    rw [jsStrOr_str qid _ hid, jsStrOr_str qq _ hq, normalizeLevel_levelToStr]
    rw [show jsToNumberOpt (some (JVal.num pts)) = some pts from rfl]
    dsimp only
    rw [hpts_rt]
    rw [coerceStrArr_map_str kws hpl]
  | code sc ekp =>
    have htype : normalizeType
        (getF (some (questionToJVal ⟨qid, qq, lvl, pts, .code sc ekp⟩)) "type") = QType.code := rfl
    simp only [normalizeQuestion, htype]
    rw [show getF (some (questionToJVal ⟨qid, qq, lvl, pts, .code sc ekp⟩)) "id" =
        some (JVal.str qid) from rfl]
    rw [show getF (some (questionToJVal ⟨qid, qq, lvl, pts, .code sc ekp⟩)) "q" =
        some (JVal.str qq) from rfl]
    rw [show getF (some (questionToJVal ⟨qid, qq, lvl, pts, .code sc ekp⟩)) "level" =
        some (JVal.str (levelToStr lvl)) from rfl]
    rw [show getF (some (questionToJVal ⟨qid, qq, lvl, pts, .code sc ekp⟩)) "points" =
        some (JVal.num pts) from rfl]
    rw [show getF (some (questionToJVal ⟨qid, qq, lvl, pts, .code sc ekp⟩)) "starterCode" =
        some (JVal.str sc) from rfl]
    rw [show getF (some (questionToJVal ⟨qid, qq, lvl, pts, .code sc ekp⟩)) "expectedKeyPoints" =
        some (JVal.arr (ekp.map JVal.str)) from rfl]
    rw [jsStrOr_str qid _ hid, jsStrOr_str qq _ hq, normalizeLevel_levelToStr]
    rw [show jsToNumberOpt (some (JVal.num pts)) = some pts from rfl]
    dsimp only
    rw [hpts_rt]
    rw [jsStrOr_str_empty_default sc]
    rw [coerceStrArr_map_str ekp hpl]

theorem normIdx_good (xs : List JVal)
    (h : ∀ v ∈ xs, stableStr (getField v "id") = true ∧ stableStr (getField v "q") = true) :
    ∀ n, ∀ qn ∈ normIdx n xs, goodQuestion qn := by
  induction xs with
  | nil => intro n qn hqn; cases hqn
  | cons v rest ih =>
    intro n qn hqn
    rcases List.mem_cons.mp hqn with rfl | hm
    · obtain ⟨h1, h2⟩ := h v (List.mem_cons_self v rest)
      exact normalizeQuestion_good (some v) n h1 h2
    · exact ih (fun w hw => h w (List.mem_cons_of_mem v hw)) (n + 1) qn hm

theorem normIdx_roundtrip (qs : List QuestionF) (h : ∀ qn ∈ qs, goodQuestion qn) :
    ∀ n, normIdx n (qs.map questionToJVal) = qs := by
  induction qs with
  | nil => intro n; rfl
  | cons qn rest ih =>
    intro n
    show normalizeQuestion (some (questionToJVal qn)) n :: normIdx (n + 1) (rest.map questionToJVal)
      = qn :: rest
    rw [normalizeQuestion_roundtrip qn (h qn (List.mem_cons_self qn rest)) n]
    rw [ih (fun w hw => h w (List.mem_cons_of_mem qn hw)) (n + 1)]

theorem normalizeQuiz_questions_good (x : Option JVal)
    (h : ∀ v ∈ rawQuestionsOf x,
      stableStr (getField v "id") = true ∧ stableStr (getField v "q") = true) :
    ∀ qn ∈ (normalizeQuiz x).questions, goodQuestion qn := by
  intro qn hqn
  have : qn ∈ (if (normIdx 0 (rawQuestionsOf x)).isEmpty then [defaultQuestion]
      else normIdx 0 (rawQuestionsOf x)) := hqn
  by_cases he : (normIdx 0 (rawQuestionsOf x)).isEmpty
  · rw [if_pos he] at this
    rw [List.mem_singleton.mp this]
    exact goodQuestion_default
  · rw [if_neg he] at this
    exact normIdx_good (rawQuestionsOf x) h 0 qn this

theorem normalizeQuiz_questions_ne_nil (x : Option JVal) :
    (normalizeQuiz x).questions ≠ [] := by
  show (if (normIdx 0 (rawQuestionsOf x)).isEmpty then [defaultQuestion]
    else normIdx 0 (rawQuestionsOf x)) ≠ []
  by_cases he : (normIdx 0 (rawQuestionsOf x)).isEmpty
  · rw [if_pos he]
    exact List.cons_ne_nil _ _
  · rw [if_neg he]
    intro hnil
    exact he (hnil ▸ rfl)

/-- Claim C5 (amended): normalization applied to its own output is the
identity for every input whose `title`, `description`, and per-question
`id` and `q` fields do not stringify a truthy value to the empty string
(in particular for all inputs where those fields are strings, numbers,
booleans, objects, `null`, or absent); in general a second
normalization differs only by replacing such emptied fields with their
defaults. -/
theorem C5_idempotent_amended (x : Option JVal) (h : stableQuizInput x = true) :
    normalizeQuiz (some (quizToJVal (normalizeQuiz x))) = normalizeQuiz x := by
  have h' := h
  unfold stableQuizInput at h'
  rw [Bool.and_eq_true, Bool.and_eq_true] at h'
  obtain ⟨⟨ht, hd⟩, hqs⟩ := h'
  have hqs' : ∀ v ∈ rawQuestionsOf x,
      stableStr (getField v "id") = true ∧ stableStr (getField v "q") = true := by
    intro v hv
    have := List.all_eq_true.mp hqs v hv
    rw [Bool.and_eq_true] at this
    exact this
  have htitle : (normalizeQuiz x).title ≠ "" :=
    jsStrOr_ne_empty _ _ ht (by decide)
  have hdesc : (normalizeQuiz x).description ≠ "" :=
    jsStrOr_ne_empty _ _ hd (by decide)
  have hgood := normalizeQuiz_questions_good x hqs'
  have hne := normalizeQuiz_questions_ne_nil x
  have hroundtrip := normIdx_roundtrip (normalizeQuiz x).questions hgood 0
  have hT : (normalizeQuiz (some (quizToJVal (normalizeQuiz x)))).title =
      (normalizeQuiz x).title := by
    show jsStrOr (getF (some (quizToJVal (normalizeQuiz x))) "title") "Practice Quiz" =
      (normalizeQuiz x).title
    rw [show getF (some (quizToJVal (normalizeQuiz x))) "title" =
      some (JVal.str (normalizeQuiz x).title) from rfl]
    exact jsStrOr_str _ _ htitle
  have hD : (normalizeQuiz (some (quizToJVal (normalizeQuiz x)))).description =
      (normalizeQuiz x).description := by
    show jsStrOr (getF (some (quizToJVal (normalizeQuiz x))) "description")
      "AI-ready coding quiz" = (normalizeQuiz x).description
    rw [show getF (some (quizToJVal (normalizeQuiz x))) "description" =
      some (JVal.str (normalizeQuiz x).description) from rfl]
    exact jsStrOr_str _ _ hdesc
  have hQ : (normalizeQuiz (some (quizToJVal (normalizeQuiz x)))).questions =
      (normalizeQuiz x).questions := by
    show (if (normIdx 0 (rawQuestionsOf (some (quizToJVal (normalizeQuiz x))))).isEmpty
      then [defaultQuestion]
      else normIdx 0 (rawQuestionsOf (some (quizToJVal (normalizeQuiz x))))) =
      (normalizeQuiz x).questions
    rw [show rawQuestionsOf (some (quizToJVal (normalizeQuiz x))) =
      (normalizeQuiz x).questions.map questionToJVal from rfl]
    rw [hroundtrip]
    rw [if_neg]
    intro hemp
    exact hne (List.isEmpty_iff.mp hemp)
  calc normalizeQuiz (some (quizToJVal (normalizeQuiz x)))
      = ⟨(normalizeQuiz (some (quizToJVal (normalizeQuiz x)))).title,
          (normalizeQuiz (some (quizToJVal (normalizeQuiz x)))).description,
          (normalizeQuiz (some (quizToJVal (normalizeQuiz x)))).questions⟩ := rfl
    _ = ⟨(normalizeQuiz x).title, (normalizeQuiz x).description,
          (normalizeQuiz x).questions⟩ := by rw [hT, hD, hQ]
    _ = normalizeQuiz x := rfl

/-- A raw input whose `title` is the empty array: truthy, but
`String([])` is `""`. -/
def c5Input : JVal := .obj [("title", .arr []), ("questions", .arr [.obj []])]

/-- Claim C5 (counterexample): normalization is not idempotent for
every input shape.  With `title: []` the first pass stores the title
`""` (the empty array is truthy and stringifies to the empty string),
and the second pass replaces it with the default `"Practice Quiz"`. -/
theorem C5_counterexample :
    (normalizeQuiz (some c5Input)).title = "" ∧
      (normalizeQuiz (some (quizToJVal (normalizeQuiz (some c5Input))))).title =
        "Practice Quiz" ∧
      normalizeQuiz (some (quizToJVal (normalizeQuiz (some c5Input)))) ≠
        normalizeQuiz (some c5Input) := by
  with_unfolding_all decide

/-- A representative input with stable string fields. -/
def c5StableInput : JVal :=
  .obj [("title", .str "My quiz"),
    ("questions", .arr [.obj [("type", .str "mcq"), ("q", .str "Pick one")]])]

theorem C5_idempotent_amended_witness :
    stableQuizInput (some c5StableInput) = true ∧
      normalizeQuiz (some (quizToJVal (normalizeQuiz (some c5StableInput)))) =
        normalizeQuiz (some c5StableInput) := by
  have h : stableQuizInput (some c5StableInput) = true := by with_unfolding_all decide
  exact ⟨h, C5_idempotent_amended (some c5StableInput) h⟩
